import Mathlib

/-!
# Swagger parameter and example synthesis of goctl (tools/goctl/api/swagger)

A shallow embedding of `parameter.go` (and the part of `response.go` that calls into it).

Conventions of the embedding:

* a Go `string` is a Lean `String` (a sequence of Unicode code points, i.e. valid UTF-8);
* a Go `any` value produced by the example synthesizer is a `Value`; the untyped `nil`
  interface, a nil `[]any` and an empty non-nil `[]any` are three different values;
* `int64` is an `Int` and `uint64` a `Nat`, the range checks of `strconv` being explicit;
* a `float64` is carried by its bit pattern and never computed with;
* a Go `map[string]T` is an association list with unique keys;
* functions of the package whose bodies live in other files are the fields of `External`.
-/

namespace Swagger

/-! ## Go standard library: `strings` and `strconv` -/

/-- Go `unicode.IsSpace`, the predicate `strings.TrimSpace` trims with. -/
def isSpace (c : Char) : Bool :=
  c.toNat = 9 || c.toNat = 10 || c.toNat = 11 || c.toNat = 12 || c.toNat = 13 ||
  c.toNat = 32 || c.toNat = 0x85 || c.toNat = 0xA0 || c.toNat = 0x1680 ||
  (0x2000 ≤ c.toNat && c.toNat ≤ 0x200A) || c.toNat = 0x2028 || c.toNat = 0x2029 ||
  c.toNat = 0x202F || c.toNat = 0x205F || c.toNat = 0x3000

/-- Go `strings.TrimSpace` on the code points of a string. -/
def trimSpaceL (l : List Char) : List Char :=
  (l.dropWhile isSpace).rdropWhile isSpace

/-- Go `strings.TrimSpace`. -/
def trimSpace (s : String) : String :=
  String.mk (trimSpaceL s.data)

/-- Put a character in front of the first segment of a split. -/
def consHead (c : Char) : List (List Char) → List (List Char)
  | [] => [[c]]
  | seg :: segs => (c :: seg) :: segs

/-- Go `strings.Split(s, ",")` on the code points of a string: the segments between commas;
the empty string has the single segment `""`. -/
def splitCommaL : List Char → List (List Char)
  | [] => [[]]
  | c :: cs => if c = ',' then [] :: splitCommaL cs else consHead c (splitCommaL cs)

/-- Go `strings.Split(s, ",")`. -/
def splitComma (s : String) : List String :=
  (splitCommaL s.data).map String.mk

/-- Go `strings.HasPrefix(s, "[")`. -/
def hasPrefixBracket (s : String) : Bool :=
  s.data.head? = some '['

/-- Go `strings.HasSuffix(s, "]")`. -/
def hasSuffixBracket (s : String) : Bool :=
  s.data.getLast? = some ']'

/-- Go slice expression `s[1 : len(s)-1]`, used only on strings that start with `[` and end
with `]`, both one byte long, so that the byte offsets are character offsets. -/
def stripEnds (s : String) : String :=
  String.mk s.data.tail.dropLast

/-- ASCII letters. -/
def isAsciiLetter (c : Char) : Bool :=
  (65 ≤ c.toNat && c.toNat ≤ 90) || (97 ≤ c.toNat && c.toNat ≤ 122)

/-- ASCII lower-casing of a code point number. -/
def asciiLower (c : Char) : Nat :=
  if 65 ≤ c.toNat && c.toNat ≤ 90 then c.toNat + 32 else c.toNat

/-- Whether the rune `r` and the ASCII character `c` are equal under Unicode simple case
folding (`unicode.SimpleFold`): the same rune, the two cases of one ASCII letter, the Kelvin
sign U+212A for `k`, or the long s U+017F for `s`. -/
def foldEqAscii (r c : Char) : Bool :=
  r = c || (isAsciiLetter r && isAsciiLetter c && asciiLower r = asciiLower c) ||
  (asciiLower c = 107 && r.toNat = 0x212A) || (asciiLower c = 115 && r.toNat = 0x17F)

/-- Go `strings.EqualFold(s, t)` for a `t` made of ASCII characters, rune by rune. -/
def equalFoldL : List Char → List Char → Bool
  | [], [] => true
  | r :: rs, c :: cs => foldEqAscii r c && equalFoldL rs cs
  | _, _ => false

/-- Go `strings.EqualFold(s, t)` for an ASCII `t` (here always an HTTP method constant). -/
def equalFold (s t : String) : Bool :=
  equalFoldL s.data t.data

/-- Value of a decimal digit. -/
def digitVal (c : Char) : Option Nat :=
  if 48 ≤ c.toNat && c.toNat ≤ 57 then some (c.toNat - 48) else none

/-- Read decimal digits after the accumulator `acc`; `none` on any other character. -/
def readDigits : List Char → Nat → Option Nat
  | [], acc => some acc
  | c :: cs, acc =>
    match digitVal c with
    | none => none
    | some d => readDigits cs (acc * 10 + d)

/-- Go `strconv.ParseUint(s, 10, 64)`: one or more decimal digits, no sign, no underscore,
value at most `2^64 - 1`; `none` stands for a non-nil error. -/
def parseUintL (l : List Char) : Option Nat :=
  match l with
  | [] => none
  | _ :: _ =>
    match readDigits l 0 with
    | none => none
    | some n => if n < 2 ^ 64 then some n else none

/-- Go `strconv.ParseUint(s, 10, 64)`. -/
def parseUint (s : String) : Option Nat :=
  parseUintL s.data

/-- Go `strconv.ParseInt(s, 10, 64)`: an optional sign `+` or `-`, then the digits read as
by `ParseUint`, the value within `-2^63 .. 2^63 - 1`. -/
def parseIntL (l : List Char) : Option Int :=
  match l with
  | [] => none
  | c :: cs =>
    let neg := decide (c = '-')
    let digits := if c = '+' ∨ c = '-' then cs else l
    match parseUintL digits with
    | none => none
    | some un =>
      if !neg && 2 ^ 63 ≤ un then none
      else if neg && 2 ^ 63 < un then none
      else some (if neg then -(un : Int) else (un : Int))

/-- Go `strconv.ParseInt(s, 10, 64)`. -/
def parseInt (s : String) : Option Int :=
  parseIntL s.data

/-- Go `strconv.ParseBool`. -/
def parseBool (s : String) : Option Bool :=
  if s = "1" ∨ s = "t" ∨ s = "T" ∨ s = "TRUE" ∨ s = "true" ∨ s = "True" then some true
  else if s = "0" ∨ s = "f" ∨ s = "F" ∨ s = "FALSE" ∨ s = "false" ∨ s = "False" then some false
  else none

/-! ## Data model -/

/-- A Go `float64`, carried by its IEEE-754 bit pattern. -/
structure Float64 where
  bits : Nat
  deriving DecidableEq, Repr

/-- A Go `any` as produced by the example synthesizer. `nil` is the untyped nil interface,
`nilSlice` a `[]any` that was declared and never appended to, `slice` a non-nil `[]any`. -/
inductive Value where
  | nil
  | str (s : String)
  | int64 (i : Int)
  | uint64 (n : Nat)
  | float64 (f : Float64)
  | bool (b : Bool)
  | nilSlice
  | slice (elems : List Value)
  deriving Repr

/-- A Go `[]any` variable: `none` is the nil slice. -/
abbrev AnySlice := Option (List Value)

/-- Go `append(result, v)`. -/
def AnySlice.append (result : AnySlice) (v : Value) : AnySlice :=
  match result with
  | none => some [v]
  | some elems => some (elems ++ [v])

/-- Conversion of a `[]any` to `any` at `return result`. -/
def AnySlice.toValue : AnySlice → Value
  | none => Value.nilSlice
  | some elems => Value.slice elems

/-- Modelled from the spec: the parsed field tag `key:"name,opt1,opt2"` (apiSpec.Tag, declared
outside the translated files), of which only the key, the name and the option list are
consumed. -/
structure Tag where
  Key : String
  Name : String
  Options : List String
  deriving DecidableEq, Repr

/-- Modelled from the spec: the parsed tags of a member (apiSpec.Tags), in source order. -/
abbrev Tags := List Tag

/-- Modelled from the spec: method `Get` of apiSpec.Tags, the tag with the given key when the
member carries one; `none` is the nil tag pointer. -/
def Tags.Get (tags : Tags) (key : String) : Option Tag :=
  tags.find? (fun t => t.Key == key)

mutual
/-- Modelled from the spec: the type model (apiSpec.Type, declared outside the translated
files), a tagged union over primitive, array, map, pointer, named struct (`DefineStruct`)
and anonymous struct (`NestedStruct`); the nil interface is `none` of `Option Ty`. -/
inductive Ty where
  | PrimitiveType (RawName : String)
  | ArrayType (RawName : String) (Value : Ty)
  | MapType (RawName : String) (Key : String) (Value : Ty)
  | PointerType (RawName : String) (Type_ : Ty)
  | DefineStruct (RawName : String) (Members : List Member)
  | NestedStruct (RawName : String) (Members : List Member)
/-- Modelled from the spec: a struct member (apiSpec.Member) with its name, type, tags and
doc comment; `Tag` holds the tags as the external tag parser returns them. -/
inductive Member where
  | mk (Name : String) (Type_ : Ty) (Tag : Tags) (Comment : String)
end

/-- Field `Name` of a member. -/
def Member.Name : Member → String
  | .mk n _ _ _ => n

/-- Field `Type` of a member. -/
def Member.Type_ : Member → Ty
  | .mk _ t _ _ => t

/-- Field `Tag` of a member, parsed. -/
def Member.Tag : Member → Tags
  | .mk _ _ t _ => t

/-- Field `Comment` of a member. -/
def Member.Comment : Member → String
  | .mk _ _ _ c => c

set_option linter.dupNamespace false in
/-- Go-openapi `spec.Items`, the items of a non-body parameter. -/
structure Items where
  Type_ : String
  Format : String
  Items : Option Items

/-- Go-openapi `spec.Schema`, with the fields the package sets. An empty `Ref` is no
reference; `Items` and `AdditionalProperties` are the single-schema forms of
`*SchemaOrArray` and `*SchemaOrBool`; `Properties` is a map with unique keys. -/
structure Schema where
  Ref : String
  Description : String
  Type_ : List String
  Default : Value
  Maximum : Option Float64
  ExclusiveMaximum : Bool
  Minimum : Option Float64
  ExclusiveMinimum : Bool
  Enum : List Value
  Required : List String
  Items : Option Schema
  Properties : List (String × Schema)
  AdditionalProperties : Option Schema
  Example : Value

/-- The zero value `spec.Schema{}`. -/
def Schema.zero : Schema :=
  { Ref := "", Description := "", Type_ := [], Default := Value.nil, Maximum := none,
    ExclusiveMaximum := false, Minimum := none, ExclusiveMinimum := false, Enum := [],
    Required := [], Items := none, Properties := [], AdditionalProperties := none,
    Example := Value.nil }

/-- Go-openapi `spec.Parameter`: `CommonValidations`, `SimpleSchema` and `ParamProps`
flattened. -/
structure Parameter where
  Maximum : Option Float64
  ExclusiveMaximum : Bool
  Minimum : Option Float64
  ExclusiveMinimum : Bool
  Enum : List Value
  Type_ : String
  Default : Value
  Items : Option Items
  In : String
  Name : String
  Description : String
  Required : Bool
  AllowEmptyValue : Bool
  Schema : Option Schema

/-- The zero value `spec.Parameter{}`. -/
def Parameter.zero : Parameter :=
  { Maximum := none, ExclusiveMaximum := false, Minimum := none, ExclusiveMinimum := false,
    Enum := [], Type_ := "", Default := Value.nil, Items := none, In := "", Name := "",
    Description := "", Required := false, AllowEmptyValue := false, Schema := none }

/-- Modelled from the spec: the generation context (declared outside the translated files),
of which the translated functions read only whether shared definitions are preferred. -/
structure Context where
  UseDefinitions : Bool
  deriving DecidableEq, Repr

/-- Modelled from the spec: the documentation block of an endpoint (apiSpec.AtDoc), a
mapping of property keys to literal strings. -/
structure AtDoc where
  Properties : List (String × String)
  deriving DecidableEq, Repr

/-- Functions that `parameter.go` and `response.go` call and whose bodies are in other files
of the package (the type-to-schema mapper, the tag-option readers, the property reader of
`AtDoc`) or in the Go library (`strconv.ParseFloat`). They are parameters of the embedding. -/
structure External where
  isRequired : Context → Tags → Bool
  rangeValueFromOptions : List String → Option Float64 × Option Float64 × Bool × Bool
  enumsValueFromOptions : List String → List Value
  defValueFromOptions : Context → List String → Ty → Value
  exampleValueFromOptions : Context → List String → Ty → Value
  sampleTypeFromGoType : Context → Ty → String
  sampleItemsFromGoType : Context → Ty → Option Items
  typeFromGoType : Context → Ty → List String
  itemsFromGoType : Context → Ty → Option Schema
  mapFromGoType : Context → Ty → Option Schema
  propertiesFromType : Context → Ty → List (String × Schema) × List String
  formatComment : String → String
  getRefName : String → String
  getStringFromKVOrDefault : List (String × String) → String → String → String
  parseFloat : String → Option Float64
  containsStruct : Ty → String × Bool
  wrapCodeMsgProps : Context → Schema → AtDoc → Schema

/-! ## Constants of the package and of `net/http` -/

/-- Modelled from the spec: the header binding tag key. -/
def tagHeader : String := "header"
/-- Modelled from the spec: the path binding tag key. -/
def tagPath : String := "path"
/-- Modelled from the spec: the form binding tag key. -/
def tagForm : String := "form"
/-- Modelled from the spec: the json binding tag key. -/
def tagJson : String := "json"
/-- Modelled from the spec: parameter location `header`. -/
def paramsInHeader : String := "header"
/-- Modelled from the spec: parameter location `path`. -/
def paramsInPath : String := "path"
/-- Modelled from the spec: parameter location `query`. -/
def paramsInQuery : String := "query"
/-- Modelled from the spec: parameter location `formData`. -/
def paramsInForm : String := "formData"
/-- Modelled from the spec: parameter location `body`, also the name of the body parameter. -/
def paramsInBody : String := "body"
/-- Modelled from the spec: OpenAPI type name `array`. -/
def swaggerTypeArray : String := "array"
/-- Modelled from the spec: OpenAPI type name `object`. -/
def swaggerTypeObject : String := "object"
/-- Modelled from the spec: the doc-level request example key. -/
def propertyKeyReqExample : String := "reqExample"
/-- Modelled from the spec: the doc-level response example key. -/
def propertyKeyRespExample : String := "respExample"
/-- Go `http.MethodPost`. -/
def MethodPost : String := "POST"
/-- Go `http.MethodGet`. -/
def MethodGet : String := "GET"
/-- Go `http.StatusOK`. -/
def StatusOK : Nat := 200

/-- Assignment `m[k] = v` on a map kept as an association list with unique keys. -/
def mapSet {β : Type} (m : List (String × β)) (k : String) (v : β) : List (String × β) :=
  m.filter (fun p => p.1 != k) ++ [(k, v)]

/-- Lookup `m[k]` on a map; `none` when the key is absent. -/
def mapGet {β : Type} (m : List (String × β)) (k : String) : Option β :=
  (m.find? (fun p => p.1 == k)).map Prod.snd

/-- Modelled from the spec: `rangeMemberAndDo` (in another file of the package) iterates the
members of a struct in declaration order and hands the callback the member, its parsed tags
and the requiredness derived from them. The callback updates captured variables, here the
state `st`. -/
def rangeMemberAndDo {σ : Type} (ext : External) (ctx : Context) (structType : Ty)
    (callback : σ → Tags → Bool → Member → σ) (st : σ) : σ :=
  match structType with
  | Ty.DefineStruct _ members =>
    members.foldl (fun acc m => callback acc m.Tag (ext.isRequired ctx m.Tag) m) st
  | Ty.NestedStruct _ members =>
    members.foldl (fun acc m => callback acc m.Tag (ext.isRequired ctx m.Tag) m) st
  | _ => st

/-! ## The example synthesizer (`parameter.go`) -/

/-- Function `parsePrimitiveExample`: parse the example of a primitive type by its name;
a literal that does not parse is returned as the raw string. -/
def parsePrimitiveExample (ext : External) (exampleStr typeName : String) : Value :=
  if typeName = "int" ∨ typeName = "int8" ∨ typeName = "int16" ∨ typeName = "int32" ∨
      typeName = "int64" then
    match parseInt exampleStr with
    | some val => Value.int64 val
    | none => Value.str exampleStr
  else if typeName = "uint" ∨ typeName = "uint8" ∨ typeName = "uint16" ∨
      typeName = "uint32" ∨ typeName = "uint64" then
    match parseUint exampleStr with
    | some val => Value.uint64 val
    | none => Value.str exampleStr
  else if typeName = "float32" ∨ typeName = "float64" then
    match ext.parseFloat exampleStr with
    | some val => Value.float64 val
    | none => Value.str exampleStr
  else if typeName = "bool" then
    match parseBool exampleStr with
    | some val => Value.bool val
    | none => Value.str exampleStr
  else if typeName = "string" then
    Value.str exampleStr
  else
    Value.str exampleStr

/-- Function `parseArrayExample`: parse the example of an array from its element type. A
string in brackets loses them and is split on commas, any other string is split on commas
directly; each trimmed non-empty part is parsed against the element type. -/
def parseArrayExample (ext : External) (exampleStr : String) (elementType : Ty) : Value :=
  if hasPrefixBracket exampleStr && hasSuffixBracket exampleStr then
    let content := trimSpace (stripEnds exampleStr)
    if content = "" then
      Value.slice []
    else
      let parts := splitComma content
      let result : AnySlice := parts.foldl (fun result part =>
        let part := trimSpace part
        if part = "" then result
        else
          match elementType with
          | Ty.PrimitiveType rawName =>
            result.append (parsePrimitiveExample ext part rawName)
          | Ty.ArrayType _ value =>
            result.append (parseArrayExample ext part value)
          | _ => result.append (Value.str part)) none
      result.toValue
  else
    let parts := splitComma exampleStr
    if parts.length = 0 then
      Value.slice []
    else
      let result : AnySlice := parts.foldl (fun result part =>
        let part := trimSpace part
        if part = "" then result
        else
          match elementType with
          | Ty.PrimitiveType rawName =>
            result.append (parsePrimitiveExample ext part rawName)
          | Ty.ArrayType _ value =>
            result.append (parseArrayExample ext part value)
          | _ => result.append (Value.str part)) none
      result.toValue

/-- Function `parseExampleValue`: the example value of a type from the raw example string;
the empty string gives the nil interface. -/
def parseExampleValue (ext : External) (exampleStr : String) (memberType : Ty) : Value :=
  if exampleStr = "" then Value.nil
  else
    match memberType with
    | Ty.PrimitiveType rawName => parsePrimitiveExample ext exampleStr rawName
    | Ty.ArrayType _ value => parseArrayExample ext exampleStr value
    | Ty.MapType _ _ _ => Value.str exampleStr
    | Ty.DefineStruct _ _ => Value.str exampleStr
    | Ty.NestedStruct _ _ => Value.str exampleStr
    | Ty.PointerType _ inner => parseExampleValue ext exampleStr inner

/-- The example string that `parseExampleValueFromTag` rebuilds from the name and the options
of an `example` tag (the two steps before its last line). -/
def exampleTagValue (exampleTag : Tag) : String :=
  let exampleStr := if exampleTag.Name ≠ "" then exampleTag.Name else ""
  exampleTag.Options.foldl (fun exampleStr option =>
    if exampleStr ≠ "" then exampleStr ++ "," ++ option else option) exampleStr

/-- Function `parseExampleValueFromTag`: rebuild the example string of an `example` tag from
its name and options, joined by commas, and parse it. -/
def parseExampleValueFromTag (ext : External) (exampleTag : Option Tag) (memberType : Ty) :
    Value :=
  match exampleTag with
  | none => Value.nil
  | some exampleTag => parseExampleValue ext (exampleTagValue exampleTag) memberType

/-! ## The parameter builder (`parameter.go`) -/

/-- Comparison `v != nil` of an `any` with the untyped nil: a nil slice stored in an
interface is not nil. -/
def Value.isNil : Value → Bool
  | Value.nil => true
  | _ => false

/-- Function `isPostJson`: the struct name and whether the method is POST and some member
carries a json tag. -/
def isPostJson (ext : External) (ctx : Context) (method : String) (tp : Option Ty) :
    String × Bool :=
  if !equalFold method MethodPost then ("", false)
  else
    match tp with
    | some (Ty.DefineStruct rawName members) =>
      let isPostJson := rangeMemberAndDo ext ctx (Ty.DefineStruct rawName members)
        (fun (isPostJson : Bool) tag _ _ =>
          let jsonTag := tag.Get tagJson
          if !isPostJson then jsonTag.isSome else isPostJson) false
      (rawName, isPostJson)
    | _ => ("", false)

/-- The variables captured by the member callback of `parametersFromType`. -/
structure WalkState where
  resp : List Parameter
  properties : List (String × Schema)
  requiredFields : List String

/-- The parameter literal of a non-body parameter in `parametersFromType`, shared by the
header, path, query and formData branches up to `In` and `AllowEmptyValue`. -/
def simpleParameter (ext : External) (ctx : Context) (required : Bool) (member : Member)
    (tag : Tag) (location : String) (allowEmptyValue : Bool) : Parameter :=
  let (minimum, maximum, exclusiveMinimum, exclusiveMaximum) :=
    ext.rangeValueFromOptions tag.Options
  { Maximum := maximum
    ExclusiveMaximum := exclusiveMaximum
    Minimum := minimum
    ExclusiveMinimum := exclusiveMinimum
    Enum := ext.enumsValueFromOptions tag.Options
    Type_ := ext.sampleTypeFromGoType ctx member.Type_
    Default := ext.defValueFromOptions ctx tag.Options member.Type_
    Items := ext.sampleItemsFromGoType ctx member.Type_
    In := location
    Name := tag.Name
    Description := ext.formatComment member.Comment
    Required := required
    AllowEmptyValue := allowEmptyValue
    Schema := none }

/-- The property schema built in the `if hasJson` branch of `parametersFromType`. -/
def jsonProperty (ext : External) (ctx : Context) (member : Member) (jsonTag : Tag)
    (exampleTag : Option Tag) : Schema :=
  let (minimum, maximum, exclusiveMinimum, exclusiveMaximum) :=
    ext.rangeValueFromOptions jsonTag.Options
  let schema : Schema :=
    { Schema.zero with
      Example := ext.exampleValueFromOptions ctx jsonTag.Options member.Type_
      Description := ext.formatComment member.Comment
      Type_ := ext.typeFromGoType ctx member.Type_
      Default := ext.defValueFromOptions ctx jsonTag.Options member.Type_
      Maximum := maximum
      ExclusiveMaximum := exclusiveMaximum
      Minimum := minimum
      ExclusiveMinimum := exclusiveMinimum
      Enum := ext.enumsValueFromOptions jsonTag.Options
      AdditionalProperties := ext.mapFromGoType ctx member.Type_ }
  let schema :=
    if exampleTag.isSome then
      let exampleValue := parseExampleValueFromTag ext exampleTag member.Type_
      if !exampleValue.isNil then { schema with Example := exampleValue } else schema
    else schema
  if ext.sampleTypeFromGoType ctx member.Type_ = swaggerTypeArray then
    { schema with Items := ext.itemsFromGoType ctx member.Type_ }
  else if ext.sampleTypeFromGoType ctx member.Type_ = swaggerTypeObject then
    let (p, r) := ext.propertiesFromType ctx member.Type_
    { schema with Properties := p, Required := r }
  else schema

/-- The callback that `parametersFromType` hands to `rangeMemberAndDo`: one member appends
its header, path and form parameters, in this order, and records its json property. -/
def memberCallback (ext : External) (ctx : Context) (method : String) (st : WalkState)
    (tag : Tags) (required : Bool) (member : Member) : WalkState :=
  let headerTag := tag.Get tagHeader
  let pathParameterTag := tag.Get tagPath
  let formTag := tag.Get tagForm
  let jsonTag := tag.Get tagJson
  let exampleTag := tag.Get "example"
  let st :=
    match headerTag with
    | some headerTag =>
      { st with resp := st.resp ++
          [simpleParameter ext ctx required member headerTag paramsInHeader false] }
    | none => st
  let st :=
    match pathParameterTag with
    | some pathParameterTag =>
      { st with resp := st.resp ++
          [simpleParameter ext ctx required member pathParameterTag paramsInPath false] }
    | none => st
  let st :=
    match formTag with
    | some formTag =>
      if equalFold method MethodGet then
        { st with resp := st.resp ++
            [simpleParameter ext ctx required member formTag paramsInQuery (!required)] }
      else
        { st with resp := st.resp ++
            [simpleParameter ext ctx required member formTag paramsInForm (!required)] }
    | none => st
  match jsonTag with
  | some jsonTag =>
    { st with
      requiredFields :=
        if required then st.requiredFields ++ [jsonTag.Name] else st.requiredFields
      properties := mapSet st.properties jsonTag.Name
        (jsonProperty ext ctx member jsonTag exampleTag) }
  | none => st

/-- Attach the doc-level `reqExample` to the schema of a body parameter, as the three
`if reqExample := ...; reqExample != ""` blocks of `parametersFromType` do. -/
def attachReqExample (ext : External) (atDoc : AtDoc) (tp : Ty) (schema : Schema) : Schema :=
  let reqExample := ext.getStringFromKVOrDefault atDoc.Properties propertyKeyReqExample ""
  if reqExample ≠ "" then
    let exampleValue := parseExampleValue ext reqExample tp
    if !exampleValue.isNil then { schema with Example := exampleValue } else schema
  else schema

/-- The body parameter literal `{In: body, Name: body, Required: true, Schema: &schema}`. -/
def bodyParameter (schema : Schema) : Parameter :=
  { Parameter.zero with
    In := paramsInBody, Name := paramsInBody, Required := true, Schema := some schema }

/-- Function `parametersFromType`: the parameters of a request type under an HTTP method. -/
def parametersFromType (ext : External) (ctx : Context) (method : String) (tp : Option Ty)
    (atDoc : AtDoc) : List Parameter :=
  match tp with
  | none => []
  | some (Ty.ArrayType rawName value) =>
    let arrayType := Ty.ArrayType rawName value
    let schema : Schema :=
      { Schema.zero with
        Type_ := [swaggerTypeArray], Items := ext.itemsFromGoType ctx arrayType }
    [bodyParameter (attachReqExample ext atDoc arrayType schema)]
  | some (Ty.DefineStruct rawName members) =>
    let structType := Ty.DefineStruct rawName members
    let st := rangeMemberAndDo ext ctx structType (memberCallback ext ctx method)
      { resp := [], properties := [], requiredFields := [] }
    if 0 < st.properties.length then
      if ctx.UseDefinitions then
        let (structName, ok) := isPostJson ext ctx method tp
        if ok then
          let schema : Schema := { Schema.zero with Ref := ext.getRefName structName }
          st.resp ++ [bodyParameter (attachReqExample ext atDoc structType schema)]
        else st.resp
      else
        let schema : Schema :=
          { Schema.zero with
            Type_ := ext.typeFromGoType ctx structType
            Properties := st.properties
            Required := st.requiredFields }
        st.resp ++ [bodyParameter (attachReqExample ext atDoc structType schema)]
    else st.resp
  | some _ => []

/-! ## A concrete instance of the external functions -/

/-- A simple instance of `External`, used to run the builders on concrete inputs: a member
is required unless its first tag has the option `optional`, a property is looked up by
plain key equality, and the schema mapper knows the array and the object. -/
def External.simple : External :=
  { isRequired := fun _ tags =>
      match tags with
      | [] => true
      | t :: _ => !(t.Options.contains "optional")
    rangeValueFromOptions := fun _ => (none, none, false, false)
    enumsValueFromOptions := fun _ => []
    defValueFromOptions := fun _ _ _ => Value.nil
    exampleValueFromOptions := fun _ _ _ => Value.nil
    sampleTypeFromGoType := fun _ t =>
      match t with
      | Ty.ArrayType _ _ => swaggerTypeArray
      | Ty.PrimitiveType _ => "string"
      | _ => swaggerTypeObject
    sampleItemsFromGoType := fun _ _ => none
    typeFromGoType := fun _ t =>
      match t with
      | Ty.ArrayType _ _ => [swaggerTypeArray]
      | Ty.PrimitiveType _ => ["string"]
      | _ => [swaggerTypeObject]
    itemsFromGoType := fun _ t =>
      match t with
      | Ty.ArrayType _ _ => some { Schema.zero with Type_ := ["integer"] }
      | _ => none
    mapFromGoType := fun _ _ => none
    propertiesFromType := fun _ _ => ([], [])
    formatComment := fun c => c
    getRefName := fun n => "#/definitions/" ++ n
    getStringFromKVOrDefault := fun props key dflt => (mapGet props key).getD dflt
    parseFloat := fun _ => none
    containsStruct := fun t =>
      match t with
      | Ty.DefineStruct n _ => (n, true)
      | _ => ("", false)
    wrapCodeMsgProps := fun _ props _ => props }

/-! ## Vocabulary of the statements -/

/-- The member walk of `parametersFromType` on the members of a named struct, from the
empty state. -/
def walkMembers (ext : External) (ctx : Context) (method : String) (members : List Member) :
    WalkState :=
  members.foldl
    (fun acc m => memberCallback ext ctx method acc m.Tag (ext.isRequired ctx m.Tag) m)
    { resp := [], properties := [], requiredFields := [] }

/-- Whether a member carries a tag with the given key. -/
def Member.hasTag (m : Member) (key : String) : Bool :=
  (m.Tag.Get key).isSome

/-- A member whose only binding tag is `json`. -/
def Member.onlyJson (m : Member) : Bool :=
  m.hasTag tagJson && !m.hasTag tagHeader && !m.hasTag tagPath && !m.hasTag tagForm

/-- A member whose only binding tag is `form`. -/
def Member.onlyForm (m : Member) : Bool :=
  m.hasTag tagForm && !m.hasTag tagHeader && !m.hasTag tagPath && !m.hasTag tagJson

/-- The location of a form-tagged member under a method: `query` under GET, else
`formData`. -/
def formLocation (method : String) : String :=
  if equalFold method MethodGet then paramsInQuery else paramsInForm

/-- The parameter that one binding tag of a member stands for, if the member carries it. -/
def tagParameter (ext : External) (ctx : Context) (m : Member) (key location : String)
    (allowEmptyValue : Bool) : List Parameter :=
  match m.Tag.Get key with
  | some tag =>
    [simpleParameter ext ctx (ext.isRequired ctx m.Tag) m tag location allowEmptyValue]
  | none => []

/-- The non-body parameters of one member: its header, its path and its form parameter, in
this order, each present when the member carries the tag. -/
def memberParams (ext : External) (ctx : Context) (method : String) (m : Member) :
    List Parameter :=
  tagParameter ext ctx m tagHeader paramsInHeader false ++
  tagParameter ext ctx m tagPath paramsInPath false ++
  tagParameter ext ctx m tagForm (formLocation method) (!ext.isRequired ctx m.Tag)

/-- The body parameter of a named struct request, as a list of at most one parameter: none
without a json-tagged member; with shared definitions, the reference body under POST and
none under another method; without shared definitions, the inline body. -/
def structBody (ext : External) (ctx : Context) (method rawName : String)
    (ms : List Member) (atDoc : AtDoc) : List Parameter :=
  let st := walkMembers ext ctx method ms
  let structType := Ty.DefineStruct rawName ms
  if ms.any (fun m => m.hasTag tagJson) then
    if ctx.UseDefinitions then
      if equalFold method MethodPost then
        [bodyParameter (attachReqExample ext atDoc structType
          { Schema.zero with Ref := ext.getRefName rawName })]
      else []
    else
      [bodyParameter (attachReqExample ext atDoc structType
        { Schema.zero with
          Type_ := ext.typeFromGoType ctx structType
          Properties := st.properties
          Required := st.requiredFields })]
  else []

/-- The request type of `createTestStruct` in `parameter_test.go`: one string member
`Username`, tagged `json:"username"` or `form:"username"`. -/
def createTestStruct (name : String) (hasJson : Bool) : Ty :=
  Ty.DefineStruct name
    [Member.mk "Username" (Ty.PrimitiveType "string")
      [{ Key := if hasJson then "json" else "form", Name := "username", Options := [] }] ""]

/-- A struct whose first member is form-tagged and whose second member is header-tagged. -/
def formThenHeader : Ty :=
  Ty.DefineStruct "Req"
    [Member.mk "Page" (Ty.PrimitiveType "int") [{ Key := "form", Name := "page", Options := [] }] "",
     Member.mk "Token" (Ty.PrimitiveType "string")
      [{ Key := "header", Name := "token", Options := [] }] ""]

/-- A decimal digit `0`..`9`. -/
def isDigit (c : Char) : Bool :=
  48 ≤ c.toNat && c.toNat ≤ 57

/-- A base-10 numeral: one or more decimal digits. -/
def isNumeral (l : List Char) : Bool :=
  !l.isEmpty && l.all isDigit

/-- The number a base-10 numeral denotes. -/
def decimalValue (l : List Char) : Nat :=
  l.foldl (fun acc c => acc * 10 + (c.toNat - 48)) 0

/-- A valid literal of a signed integer kind: a base-10 numeral with an optional sign, of a
value within `-2^63 .. 2^63 - 1`. -/
def isSignedLiteral (s : String) : Bool :=
  match s.data with
  | '-' :: ds => isNumeral ds && decide (decimalValue ds ≤ 2 ^ 63)
  | '+' :: ds => isNumeral ds && decide (decimalValue ds < 2 ^ 63)
  | ds => isNumeral ds && decide (decimalValue ds < 2 ^ 63)

/-- A valid literal of an unsigned integer kind: a base-10 numeral without sign, of a value
at most `2^64 - 1`. -/
def isUnsignedLiteral (s : String) : Bool :=
  isNumeral s.data && decide (decimalValue s.data < 2 ^ 64)

/-- A boolean literal, as Go reads them. -/
def isBoolLiteral (s : String) : Bool :=
  ["1", "t", "T", "TRUE", "true", "True", "0", "f", "F", "FALSE", "false", "False"].contains s

/-- The names of the signed integer kinds. -/
def signedKinds : List String := ["int", "int8", "int16", "int32", "int64"]

/-- The names of the unsigned integer kinds. -/
def unsignedKinds : List String := ["uint", "uint8", "uint16", "uint32", "uint64"]

/-- The value one trimmed non-empty part of an array example stands for, by the element type:
the `switch` in the loops of `parseArrayExample`. -/
def parseElement (ext : External) (elementType : Ty) (part : String) : Value :=
  match elementType with
  | Ty.PrimitiveType rawName => parsePrimitiveExample ext part rawName
  | Ty.ArrayType _ value => parseArrayExample ext part value
  | _ => Value.str part

/-- The loop of `parseArrayExample` over the parts of a split, for an element parser. -/
def collectParts (f : String → Value) (parts : List String) : AnySlice :=
  parts.foldl (fun result part =>
    let part := trimSpace part
    if part = "" then result else result.append (f part)) none

/-- The parts of a split that the loop of `parseArrayExample` keeps: trimmed and not empty. -/
def keptParts (parts : List String) : List String :=
  (parts.map trimSpace).filter (fun part => part ≠ "")

/-- Put a character behind the last segment of a split. -/
def snocLast (c : Char) : List (List Char) → List (List Char)
  | [] => [[c]]
  | [seg] => [seg ++ [c]]
  | seg :: segs => seg :: snocLast c segs

/-- The bracketed rendering of a list of integers: decimal numerals, separated by commas. -/
def renderIntArray (ns : List Int) : String :=
  "[" ++ String.intercalate "," (ns.map toString) ++ "]"

/-- Two members with the same json name and different examples. -/
def sameJsonNameTwice : List Member :=
  [Member.mk "First" (Ty.PrimitiveType "int")
    [{ Key := "json", Name := "count", Options := [] },
     { Key := "example", Name := "1", Options := [] }] "",
   Member.mk "Second" (Ty.PrimitiveType "int")
    [{ Key := "json", Name := "count", Options := [] },
     { Key := "example", Name := "2", Options := [] }] ""]

/-! ## The response builder (`response.go`) -/

/-- Go-openapi `spec.Response`, with the fields the package sets. -/
structure Response where
  Description : String
  Schema : Option Schema

/-- Go-openapi `spec.Responses`: the default response and the map from status code to
response, a map with unique keys. -/
structure Responses where
  Default : Option Response
  StatusCodeResponses : List (Nat × Response)

/-- The response literal with the single entry `http.StatusOK`, as each `return` of
`jsonResponseFromType` builds it. -/
def okResponses (description : String) (schema : Schema) : Responses :=
  { Default := none
    StatusCodeResponses := [(StatusOK, { Description := description, Schema := some schema })] }

/-- The schema `&spec.Schema{SchemaProps: wrapCodeMsgProps(ctx, props, atDoc)}` followed by
`if example != nil { schema.Example = example }`. The schema properties are carried in a
`Schema` whose example is unset: `spec.SchemaProps` has no example field. -/
def responseSchema (ext : External) (ctx : Context) (atDoc : AtDoc) (props : Schema)
    (exampleVal : Value) : Schema :=
  let schema : Schema := { ext.wrapCodeMsgProps ctx props atDoc with Example := Value.nil }
  if !exampleVal.isNil then { schema with Example := exampleVal } else schema

/-- Function `jsonResponseFromType`: the responses of a response type, one entry at status
200. -/
def jsonResponseFromType (ext : External) (ctx : Context) (atDoc : AtDoc) (tp : Option Ty) :
    Responses :=
  match tp with
  | none => okResponses "" Schema.zero
  | some tp =>
    let props : Schema :=
      { Schema.zero with
        AdditionalProperties := ext.mapFromGoType ctx tp
        Items := ext.itemsFromGoType ctx tp }
    let respExample :=
      ext.getStringFromKVOrDefault atDoc.Properties propertyKeyRespExample ""
    let exampleVal : Value :=
      if respExample ≠ "" then parseExampleValue ext respExample tp else Value.nil
    let inline : Responses :=
      let (p, _) := ext.propertiesFromType ctx tp
      let props : Schema :=
        { props with Type_ := ext.typeFromGoType ctx tp, Properties := p }
      okResponses "" (responseSchema ext ctx atDoc props exampleVal)
    if ctx.UseDefinitions then
      let (structName, ok) := ext.containsStruct tp
      if ok then
        let props : Schema := { props with Ref := ext.getRefName structName }
        okResponses "" (responseSchema ext ctx atDoc props exampleVal)
      else inline
    else inline

/-- The elements of a `[]any` held in an `any`: the nil slice has none, a value that is not a
slice has no elements to speak of. -/
def Value.elems : Value → Option (List Value)
  | Value.nilSlice => some []
  | Value.slice elems => some elems
  | _ => none

/-- The number of binding tags among header, path and form that a member carries. -/
def Member.bindingTagCount (m : Member) : Nat :=
  (if m.hasTag tagHeader then 1 else 0) + (if m.hasTag tagPath then 1 else 0) +
    (if m.hasTag tagForm then 1 else 0)

/-- Members with several binding tags: one with header, path and form, one with header and
json, one without any tag. -/
def mixedTagMembers : List Member :=
  [Member.mk "Id" (Ty.PrimitiveType "int")
    [{ Key := "header", Name := "id", Options := [] },
     { Key := "path", Name := "id", Options := [] },
     { Key := "form", Name := "id", Options := [] }] "",
   Member.mk "Trace" (Ty.PrimitiveType "string")
    [{ Key := "header", Name := "trace", Options := [] },
     { Key := "json", Name := "trace", Options := [] }] "",
   Member.mk "Hidden" (Ty.PrimitiveType "string") [] ""]

/-- The members of an anonymous struct with one form-tagged and one json-tagged member. -/
def formAndJsonMembers : List Member :=
  [Member.mk "Page" (Ty.PrimitiveType "int") [{ Key := "form", Name := "page", Options := [] }] "",
   Member.mk "Name" (Ty.PrimitiveType "string")
    [{ Key := "json", Name := "name", Options := [] }] ""]

/-! ## The member walk -/

theorem memberCallback_resp (ext : External) (ctx : Context) (method : String)
    (st : WalkState) (m : Member) :
    (memberCallback ext ctx method st m.Tag (ext.isRequired ctx m.Tag) m).resp =
      st.resp ++ memberParams ext ctx method m := by
  unfold memberCallback memberParams tagParameter formLocation
  cases m.Tag.Get tagHeader <;> cases m.Tag.Get tagPath <;> cases m.Tag.Get tagForm <;>
    cases m.Tag.Get tagJson <;> cases equalFold method MethodGet <;> simp

theorem memberCallback_properties (ext : External) (ctx : Context) (method : String)
    (st : WalkState) (m : Member) :
    (memberCallback ext ctx method st m.Tag (ext.isRequired ctx m.Tag) m).properties =
      match m.Tag.Get tagJson with
      | some jsonTag => mapSet st.properties jsonTag.Name
          (jsonProperty ext ctx m jsonTag (m.Tag.Get "example"))
      | none => st.properties := by
  unfold memberCallback
  cases m.Tag.Get tagHeader <;> cases m.Tag.Get tagPath <;> cases m.Tag.Get tagForm <;>
    cases m.Tag.Get tagJson <;> cases equalFold method MethodGet <;> simp

theorem memberCallback_requiredFields (ext : External) (ctx : Context) (method : String)
    (st : WalkState) (m : Member) :
    (memberCallback ext ctx method st m.Tag (ext.isRequired ctx m.Tag) m).requiredFields =
      match m.Tag.Get tagJson with
      | some jsonTag =>
        if ext.isRequired ctx m.Tag then st.requiredFields ++ [jsonTag.Name]
        else st.requiredFields
      | none => st.requiredFields := by
  unfold memberCallback
  cases m.Tag.Get tagHeader <;> cases m.Tag.Get tagPath <;> cases m.Tag.Get tagForm <;>
    cases m.Tag.Get tagJson <;> cases equalFold method MethodGet <;> simp

/-- The walk with one more member at the end is the callback on the walk so far. -/
theorem walkMembers_concat (ext : External) (ctx : Context) (method : String)
    (ms : List Member) (m : Member) :
    walkMembers ext ctx method (ms ++ [m]) =
      memberCallback ext ctx method (walkMembers ext ctx method ms) m.Tag
        (ext.isRequired ctx m.Tag) m := by
  simp [walkMembers, List.foldl_append]

theorem walkMembers_nil (ext : External) (ctx : Context) (method : String) :
    walkMembers ext ctx method [] = { resp := [], properties := [], requiredFields := [] } :=
  rfl

/-- The parameters collected by the walk are the non-body parameters of the members, member
after member. -/
theorem walkMembers_resp (ext : External) (ctx : Context) (method : String)
    (ms : List Member) :
    (walkMembers ext ctx method ms).resp = ms.flatMap (memberParams ext ctx method) := by
  induction ms using List.reverseRecOn with
  | nil => rfl
  | append_singleton ms m ih =>
    rw [walkMembers_concat, memberCallback_resp, ih]
    simp [List.flatMap_append]

theorem mapSet_ne_nil {β : Type} (m : List (String × β)) (k : String) (v : β) :
    mapSet m k v ≠ [] := by
  simp [mapSet]

/-- The walk has accumulated a property exactly when some member carries a json tag. -/
theorem walkMembers_properties_pos (ext : External) (ctx : Context) (method : String)
    (ms : List Member) :
    0 < (walkMembers ext ctx method ms).properties.length ↔
      ∃ m ∈ ms, m.hasTag tagJson = true := by
  induction ms using List.reverseRecOn with
  | nil => simp [walkMembers_nil]
  | append_singleton ms m ih =>
    rw [walkMembers_concat, memberCallback_properties]
    cases hj : m.Tag.Get tagJson with
    | none =>
      simp only [ih, List.mem_append, List.mem_singleton]
      constructor
      · rintro ⟨x, hx, hx2⟩
        exact ⟨x, Or.inl hx, hx2⟩
      · rintro ⟨x, hx | hx, hx2⟩
        · exact ⟨x, hx, hx2⟩
        · subst hx
          simp [Member.hasTag, hj] at hx2
    | some j =>
      simp only [List.length_pos, ne_eq, mapSet_ne_nil, not_false_eq_true, true_iff]
      exact ⟨m, by simp, by simp [Member.hasTag, hj]⟩

/-- The flag computed by the callback of `isPostJson`. -/
theorem isPostJson_flag (ext : External) (ctx : Context) (ms : List Member) (b : Bool) :
    ms.foldl (fun (acc : Bool) m =>
        (fun (isPostJson : Bool) (tag : Tags) (_ : Bool) (_ : Member) =>
          let jsonTag := tag.Get tagJson
          if !isPostJson then jsonTag.isSome else isPostJson)
          acc m.Tag (ext.isRequired ctx m.Tag) m) b =
      (b || ms.any (fun m => m.hasTag tagJson)) := by
  induction ms generalizing b with
  | nil => simp
  | cons m ms ih =>
    simp only [List.foldl_cons, List.any_cons]
    rw [ih]
    cases b <;> simp [Member.hasTag]

/-- Function `isPostJson` on a named struct. -/
theorem isPostJson_struct (ext : External) (ctx : Context) (method rawName : String)
    (ms : List Member) :
    isPostJson ext ctx method (some (Ty.DefineStruct rawName ms)) =
      if equalFold method MethodPost then (rawName, ms.any (fun m => m.hasTag tagJson))
      else ("", false) := by
  unfold isPostJson rangeMemberAndDo
  cases equalFold method MethodPost with
  | false => simp
  | true =>
    simp only [Bool.not_true, Bool.false_eq_true, if_false, if_true]
    rw [isPostJson_flag ext ctx ms false]
    simp

theorem simpleParameter_In (ext : External) (ctx : Context) (required : Bool) (m : Member)
    (tag : Tag) (location : String) (allow : Bool) :
    (simpleParameter ext ctx required m tag location allow).In = location := by
  simp [simpleParameter]

theorem simpleParameter_Name (ext : External) (ctx : Context) (required : Bool) (m : Member)
    (tag : Tag) (location : String) (allow : Bool) :
    (simpleParameter ext ctx required m tag location allow).Name = tag.Name := by
  simp [simpleParameter]

theorem simpleParameter_Required (ext : External) (ctx : Context) (required : Bool)
    (m : Member) (tag : Tag) (location : String) (allow : Bool) :
    (simpleParameter ext ctx required m tag location allow).Required = required := by
  simp [simpleParameter]

theorem simpleParameter_AllowEmptyValue (ext : External) (ctx : Context) (required : Bool)
    (m : Member) (tag : Tag) (location : String) (allow : Bool) :
    (simpleParameter ext ctx required m tag location allow).AllowEmptyValue = allow := by
  simp [simpleParameter]

theorem tagParameter_In (ext : External) (ctx : Context) (m : Member) (key location : String)
    (allow : Bool) (p : Parameter) (hp : p ∈ tagParameter ext ctx m key location allow) :
    p.In = location := by
  unfold tagParameter at hp
  cases h : m.Tag.Get key with
  | none => simp [h] at hp
  | some t =>
    simp only [h, List.mem_singleton] at hp
    rw [hp, simpleParameter_In]

theorem formLocation_cases (method : String) :
    formLocation method = paramsInQuery ∨ formLocation method = paramsInForm := by
  unfold formLocation
  cases equalFold method MethodGet <;> simp

theorem formLocation_ne_body (method : String) : formLocation method ≠ paramsInBody := by
  rcases formLocation_cases method with h | h <;> rw [h] <;> decide

theorem formLocation_ne_header (method : String) : formLocation method ≠ paramsInHeader := by
  rcases formLocation_cases method with h | h <;> rw [h] <;> decide

theorem formLocation_ne_path (method : String) : formLocation method ≠ paramsInPath := by
  rcases formLocation_cases method with h | h <;> rw [h] <;> decide

/-- A non-body parameter of a member is a header, path, query or formData parameter. -/
theorem memberParams_In (ext : External) (ctx : Context) (method : String) (m : Member)
    (p : Parameter) (hp : p ∈ memberParams ext ctx method m) :
    p.In = paramsInHeader ∨ p.In = paramsInPath ∨ p.In = formLocation method := by
  unfold memberParams at hp
  simp only [List.mem_append] at hp
  rcases hp with (hp | hp) | hp
  · exact Or.inl (tagParameter_In _ _ _ _ _ _ _ hp)
  · exact Or.inr (Or.inl (tagParameter_In _ _ _ _ _ _ _ hp))
  · exact Or.inr (Or.inr (tagParameter_In _ _ _ _ _ _ _ hp))

theorem memberParams_In_ne_body (ext : External) (ctx : Context) (method : String)
    (m : Member) (p : Parameter) (hp : p ∈ memberParams ext ctx method m) :
    p.In ≠ paramsInBody := by
  rcases memberParams_In ext ctx method m p hp with h | h | h <;> rw [h]
  · decide
  · decide
  · exact formLocation_ne_body method

theorem bodyParameter_In (schema : Schema) : (bodyParameter schema).In = paramsInBody := rfl

theorem bodyParameter_Schema (schema : Schema) :
    (bodyParameter schema).Schema = some schema := rfl

theorem structBody_length (ext : External) (ctx : Context) (method rawName : String)
    (ms : List Member) (atDoc : AtDoc) :
    (structBody ext ctx method rawName ms atDoc).length ≤ 1 := by
  unfold structBody
  simp only []
  split_ifs <;> simp

theorem structBody_In (ext : External) (ctx : Context) (method rawName : String)
    (ms : List Member) (atDoc : AtDoc) (p : Parameter)
    (hp : p ∈ structBody ext ctx method rawName ms atDoc) : p.In = paramsInBody := by
  unfold structBody at hp
  simp only [] at hp
  split_ifs at hp <;> simp at hp <;> rw [hp] <;> rfl

theorem any_hasTag_iff (ms : List Member) (key : String) :
    ms.any (fun m => m.hasTag key) = true ↔ ∃ m ∈ ms, m.hasTag key = true := by
  simp [List.any_eq_true]

/-- Function `parametersFromType` on a named struct: the non-body parameters of the members
in declaration order, then the body parameter if there is one. -/
theorem parametersFromType_struct (ext : External) (ctx : Context) (method rawName : String)
    (ms : List Member) (atDoc : AtDoc) :
    parametersFromType ext ctx method (some (Ty.DefineStruct rawName ms)) atDoc =
      ms.flatMap (memberParams ext ctx method) ++
        structBody ext ctx method rawName ms atDoc := by
  have hw : rangeMemberAndDo ext ctx (Ty.DefineStruct rawName ms)
      (memberCallback ext ctx method) { resp := [], properties := [], requiredFields := [] } =
      walkMembers ext ctx method ms := rfl
  have hpos := walkMembers_properties_pos ext ctx method ms
  rw [← any_hasTag_iff] at hpos
  unfold parametersFromType structBody
  simp only [hw, isPostJson_struct, walkMembers_resp]
  by_cases hj : ms.any (fun m => m.hasTag tagJson) = true
  · have h1 : 0 < (walkMembers ext ctx method ms).properties.length := hpos.2 hj
    simp only [h1, hj, if_true]
    cases ctx.UseDefinitions <;> cases equalFold method MethodPost <;> simp
  · have h1 : ¬ 0 < (walkMembers ext ctx method ms).properties.length :=
      fun h => hj (hpos.1 h)
    simp [h1, hj]

/-! ## Claims on the parameter builder -/

theorem isSome_eq_false {α : Type} (o : Option α) (h : o.isSome = false) : o = none := by
  cases o with
  | none => rfl
  | some a => simp at h

theorem memberParams_onlyJson (ext : External) (ctx : Context) (method : String)
    (m : Member) (h : m.onlyJson = true) : memberParams ext ctx method m = [] := by
  simp only [Member.onlyJson, Member.hasTag, Bool.and_eq_true, Bool.not_eq_true'] at h
  obtain ⟨⟨⟨_, hh⟩, hp⟩, hf⟩ := h
  simp [memberParams, tagParameter, isSome_eq_false _ hh, isSome_eq_false _ hp,
    isSome_eq_false _ hf]

theorem memberParams_onlyForm (ext : External) (ctx : Context) (method : String)
    (m : Member) (h : m.onlyForm = true) :
    ∃ t, m.Tag.Get tagForm = some t ∧
      memberParams ext ctx method m =
        [simpleParameter ext ctx (ext.isRequired ctx m.Tag) m t (formLocation method)
          (!ext.isRequired ctx m.Tag)] := by
  simp only [Member.onlyForm, Member.hasTag, Bool.and_eq_true, Bool.not_eq_true'] at h
  obtain ⟨⟨⟨hf, hh⟩, hp⟩, _⟩ := h
  obtain ⟨t, ht⟩ := Option.isSome_iff_exists.1 hf
  exact ⟨t, ht, by
    simp [memberParams, tagParameter, isSome_eq_false _ hh, isSome_eq_false _ hp, ht]⟩

/-- Claim C1, counterexample: with shared definitions and the method GET, the struct of
`createTestStruct` with its single json-tagged member gets no parameter at all, so not
exactly one body parameter. -/
theorem onlyJson_definitions_get_no_body :
    (∀ m ∈ [Member.mk "Username" (Ty.PrimitiveType "string")
        [{ Key := "json", Name := "username", Options := [] }] ""], m.onlyJson = true) ∧
    createTestStruct "TestStruct" true = Ty.DefineStruct "TestStruct"
      [Member.mk "Username" (Ty.PrimitiveType "string")
        [{ Key := "json", Name := "username", Options := [] }] ""] ∧
    parametersFromType External.simple { UseDefinitions := true } "GET"
      (some (createTestStruct "TestStruct" true)) { Properties := [] } = [] := by
  refine ⟨?_, rfl, rfl⟩
  intro m hm
  rw [List.mem_singleton] at hm
  subst hm
  rfl

/-- Claim C1, amended: for a named struct with at least one member, all of whose members
carry only a json binding tag, every parameter returned by `parametersFromType` has
In = body, under every method and context; and when shared definitions are off or the
method is POST ignoring letter case, exactly one parameter is returned, the body
parameter. -/
theorem onlyJson_body_parameter (ext : External) (ctx : Context) (method rawName : String)
    (ms : List Member) (atDoc : AtDoc) (hne : ms ≠ [])
    (hjson : ∀ m ∈ ms, m.onlyJson = true) :
    (∀ p ∈ parametersFromType ext ctx method (some (Ty.DefineStruct rawName ms)) atDoc,
        p.In = paramsInBody) ∧
    (ctx.UseDefinitions = false ∨ equalFold method MethodPost = true →
      ∃ p, parametersFromType ext ctx method (some (Ty.DefineStruct rawName ms)) atDoc = [p] ∧
        p.In = paramsInBody) := by
  have hflat : ms.flatMap (memberParams ext ctx method) = [] := by
    rw [List.flatMap_eq_nil_iff]
    exact fun m hm => memberParams_onlyJson ext ctx method m (hjson m hm)
  have hany : ms.any (fun m => m.hasTag tagJson) = true := by
    rw [any_hasTag_iff]
    obtain ⟨m, hm⟩ := List.exists_mem_of_ne_nil ms hne
    refine ⟨m, hm, ?_⟩
    have := hjson m hm
    simp only [Member.onlyJson, Bool.and_eq_true] at this
    exact this.1.1.1
  rw [parametersFromType_struct, hflat, List.nil_append]
  refine ⟨fun p hp => structBody_In ext ctx method rawName ms atDoc p hp, ?_⟩
  intro hgate
  unfold structBody
  simp only [hany, if_true]
  rcases hgate with h | h
  · simp [h, bodyParameter_In]
  · cases ctx.UseDefinitions <;> simp [h, bodyParameter_In]

/-- Claim C1, witness: the two POST rows of `TestParametersFromType`, with and without
shared definitions, on the json-tagged struct of `createTestStruct`. -/
theorem onlyJson_body_parameter_witness :
    (∃ p, parametersFromType External.simple { UseDefinitions := true } "POST"
        (some (createTestStruct "TestStruct" true)) { Properties := [] } = [p] ∧
      p.In = paramsInBody) ∧
    (∃ p, parametersFromType External.simple { UseDefinitions := false } "GET"
        (some (createTestStruct "TestStruct" true)) { Properties := [] } = [p] ∧
      p.In = paramsInBody) :=
  ⟨(onlyJson_body_parameter External.simple { UseDefinitions := true } "POST" "TestStruct"
      [Member.mk "Username" (Ty.PrimitiveType "string")
        [{ Key := "json", Name := "username", Options := [] }] ""] { Properties := [] }
      (by simp) (by intro m hm; rw [List.mem_singleton] at hm; subst hm; rfl)).2
      (Or.inr rfl),
   (onlyJson_body_parameter External.simple { UseDefinitions := false } "GET" "TestStruct"
      [Member.mk "Username" (Ty.PrimitiveType "string")
        [{ Key := "json", Name := "username", Options := [] }] ""] { Properties := [] }
      (by simp) (by intro m hm; rw [List.mem_singleton] at hm; subst hm; rfl)).2
      (Or.inl rfl)⟩

/-- Claim C2, counterexample: for a struct whose first member is form-tagged and whose second
member is header-tagged, the query parameter comes before the header parameter. -/
theorem formThenHeader_not_grouped :
    (parametersFromType External.simple { UseDefinitions := false } "GET"
      (some formThenHeader) { Properties := [] }).map (fun p => p.In) =
      [paramsInQuery, paramsInHeader] := by
  rfl

/-- Claim C2, amended: the parameters of a named struct are the non-body parameters of its
members in member declaration order (for one member its header, then its path, then its
query or formData parameter), followed by the body parameter, if any, in the last place;
the categories are not grouped, but the parameters of each category, taken alone, follow
the declaration order of the members. -/
theorem parameters_in_member_order (ext : External) (ctx : Context) (method rawName : String)
    (ms : List Member) (atDoc : AtDoc) :
    parametersFromType ext ctx method (some (Ty.DefineStruct rawName ms)) atDoc =
        ms.flatMap (memberParams ext ctx method) ++
          structBody ext ctx method rawName ms atDoc ∧
    (structBody ext ctx method rawName ms atDoc).length ≤ 1 ∧
    (∀ p ∈ structBody ext ctx method rawName ms atDoc, p.In = paramsInBody) ∧
    (∀ m ∈ ms, ∀ p ∈ memberParams ext ctx method m, p.In ≠ paramsInBody) ∧
    (parametersFromType ext ctx method (some (Ty.DefineStruct rawName ms)) atDoc).filter
        (fun p => p.In == paramsInHeader) =
      ms.flatMap (fun m => tagParameter ext ctx m tagHeader paramsInHeader false) ∧
    (parametersFromType ext ctx method (some (Ty.DefineStruct rawName ms)) atDoc).filter
        (fun p => p.In == paramsInPath) =
      ms.flatMap (fun m => tagParameter ext ctx m tagPath paramsInPath false) ∧
    (parametersFromType ext ctx method (some (Ty.DefineStruct rawName ms)) atDoc).filter
        (fun p => p.In == formLocation method) =
      ms.flatMap (fun m => tagParameter ext ctx m tagForm (formLocation method)
        (!ext.isRequired ctx m.Tag)) := by
  have hbody : ∀ loc : String, loc ≠ paramsInBody →
      (structBody ext ctx method rawName ms atDoc).filter (fun p => p.In == loc) = [] := by
    intro loc hloc
    rw [List.filter_eq_nil_iff]
    intro p hp
    rw [structBody_In ext ctx method rawName ms atDoc p hp]
    simpa using fun h => hloc h.symm
  have hsame : ∀ (m : Member) (key loc : String) (allow : Bool),
      (tagParameter ext ctx m key loc allow).filter (fun p => p.In == loc) =
        tagParameter ext ctx m key loc allow := by
    intro m key loc allow
    rw [List.filter_eq_self]
    intro p hp
    simp [tagParameter_In ext ctx m key loc allow p hp]
  have hother : ∀ (m : Member) (key loc loc2 : String) (allow : Bool), loc ≠ loc2 →
      (tagParameter ext ctx m key loc allow).filter (fun p => p.In == loc2) = [] := by
    intro m key loc loc2 allow hne
    rw [List.filter_eq_nil_iff]
    intro p hp
    rw [tagParameter_In ext ctx m key loc allow p hp]
    simpa using hne
  have hhp : paramsInHeader ≠ paramsInPath := by decide
  refine ⟨parametersFromType_struct ext ctx method rawName ms atDoc,
    structBody_length ext ctx method rawName ms atDoc,
    fun p hp => structBody_In ext ctx method rawName ms atDoc p hp,
    fun m _ p hp => memberParams_In_ne_body ext ctx method m p hp, ?_, ?_, ?_⟩
  · rw [parametersFromType_struct, List.filter_append, hbody _ (by decide),
      List.append_nil, List.filter_flatMap]
    congr 1
    funext m
    simp only [memberParams, List.filter_append, hsame,
      hother m tagPath paramsInPath paramsInHeader false hhp.symm,
      hother m tagForm (formLocation method) paramsInHeader _
        (formLocation_ne_header method), List.append_nil]
  · rw [parametersFromType_struct, List.filter_append, hbody _ (by decide),
      List.append_nil, List.filter_flatMap]
    congr 1
    funext m
    simp only [memberParams, List.filter_append, hsame,
      hother m tagHeader paramsInHeader paramsInPath false hhp,
      hother m tagForm (formLocation method) paramsInPath _
        (formLocation_ne_path method), List.append_nil, List.nil_append]
  · rw [parametersFromType_struct, List.filter_append,
      hbody _ (formLocation_ne_body method), List.append_nil, List.filter_flatMap]
    congr 1
    funext m
    simp only [memberParams, List.filter_append, hsame,
      hother m tagHeader paramsInHeader (formLocation method) false
        (formLocation_ne_header method).symm,
      hother m tagPath paramsInPath (formLocation method) false
        (formLocation_ne_path method).symm, List.nil_append]

theorem structBody_no_json (ext : External) (ctx : Context) (method rawName : String)
    (ms : List Member) (atDoc : AtDoc) (h : ∀ m ∈ ms, m.hasTag tagJson = false) :
    structBody ext ctx method rawName ms atDoc = [] := by
  have hany : ms.any (fun m => m.hasTag tagJson) = false := by
    rw [List.any_eq_false]
    intro m hm
    simp [h m hm]
  simp [structBody, hany]

theorem attachReqExample_fields (ext : External) (atDoc : AtDoc) (tp : Ty) (s : Schema) :
    (attachReqExample ext atDoc tp s).Ref = s.Ref ∧
    (attachReqExample ext atDoc tp s).Type_ = s.Type_ ∧
    (attachReqExample ext atDoc tp s).Properties = s.Properties ∧
    (attachReqExample ext atDoc tp s).Required = s.Required ∧
    (attachReqExample ext atDoc tp s).Items = s.Items := by
  unfold attachReqExample
  simp only []
  split_ifs <;> simp

/-- Claim C3: a body parameter that `parametersFromType` emits for a named struct has a
schema that is a reference to the definition named after the struct (no inline type,
properties or required list) if and only if shared definitions are on, the method is POST
ignoring letter case and some member carries a json tag; in every other case the schema is
inline, without reference, with the accumulated properties and required list. And
`isPostJson` answers `(RawName, true)` exactly when the method is POST ignoring letter case
and the named struct has a json-tagged member, and false for every type that is not a
named struct. -/
theorem body_schema_ref_iff_post_json (ext : External) (ctx : Context)
    (method rawName : String) (ms : List Member) (atDoc : AtDoc) :
    (∀ p ∈ parametersFromType ext ctx method (some (Ty.DefineStruct rawName ms)) atDoc,
      p.In = paramsInBody →
      ∃ schema, p.Schema = some schema ∧
        ((schema.Ref = ext.getRefName rawName ∧ schema.Type_ = [] ∧
            schema.Properties = [] ∧ schema.Required = []) ↔
          (ctx.UseDefinitions = true ∧ equalFold method MethodPost = true ∧
            ∃ m ∈ ms, m.hasTag tagJson = true)) ∧
        (¬ (ctx.UseDefinitions = true ∧ equalFold method MethodPost = true ∧
            ∃ m ∈ ms, m.hasTag tagJson = true) →
          schema.Ref = "" ∧
          schema.Type_ = ext.typeFromGoType ctx (Ty.DefineStruct rawName ms) ∧
          schema.Properties = (walkMembers ext ctx method ms).properties ∧
          schema.Required = (walkMembers ext ctx method ms).requiredFields)) ∧
    (isPostJson ext ctx method (some (Ty.DefineStruct rawName ms)) = (rawName, true) ↔
      (equalFold method MethodPost = true ∧ ∃ m ∈ ms, m.hasTag tagJson = true)) ∧
    ((isPostJson ext ctx method (some (Ty.DefineStruct rawName ms))).2 = true ↔
      (equalFold method MethodPost = true ∧ ∃ m ∈ ms, m.hasTag tagJson = true)) ∧
    (∀ tp : Option Ty, (∀ n members, tp ≠ some (Ty.DefineStruct n members)) →
      (isPostJson ext ctx method tp).2 = false) := by
  refine ⟨?_, ?_, ?_, ?_⟩
  · intro p hp hbody
    rw [parametersFromType_struct, List.mem_append] at hp
    rcases hp with hp | hp
    · rw [List.mem_flatMap] at hp
      obtain ⟨m, _, hpm⟩ := hp
      exact absurd hbody (memberParams_In_ne_body ext ctx method m p hpm)
    · unfold structBody at hp
      simp only [] at hp
      by_cases hany : ms.any (fun m => m.hasTag tagJson) = true
      · have hex := (any_hasTag_iff ms tagJson).1 hany
        have hprops : (walkMembers ext ctx method ms).properties ≠ [] :=
          List.length_pos.1 ((walkMembers_properties_pos ext ctx method ms).2 hex)
        simp only [hany, if_true] at hp
        cases hdef : ctx.UseDefinitions with
        | true =>
          cases hpost : equalFold method MethodPost with
          | true =>
            simp only [hdef, hpost, if_true, List.mem_singleton] at hp
            subst hp
            obtain ⟨h1, h2, h3, h4, _⟩ := attachReqExample_fields ext atDoc
              (Ty.DefineStruct rawName ms)
              { Schema.zero with Ref := ext.getRefName rawName }
            refine ⟨_, bodyParameter_Schema _, ?_, ?_⟩
            · rw [h1, h2, h3, h4]
              simp [Schema.zero, hex]
            · intro hn
              exact absurd ⟨rfl, rfl, hex⟩ hn
          | false =>
            simp [hdef, hpost] at hp
        | false =>
          simp only [hdef, Bool.false_eq_true, if_false, List.mem_singleton] at hp
          subst hp
          obtain ⟨h1, h2, h3, h4, _⟩ := attachReqExample_fields ext atDoc
            (Ty.DefineStruct rawName ms)
            { Schema.zero with
              Type_ := ext.typeFromGoType ctx (Ty.DefineStruct rawName ms)
              Properties := (walkMembers ext ctx method ms).properties
              Required := (walkMembers ext ctx method ms).requiredFields }
          refine ⟨_, bodyParameter_Schema _, ?_, ?_⟩
          · rw [h1, h2, h3, h4]
            simp [hprops]
          · intro _
            rw [h1, h2, h3, h4]
            simp [Schema.zero]
      · simp [hany] at hp
  · rw [isPostJson_struct]
    cases equalFold method MethodPost with
    | true => simp [List.any_eq_true]
    | false => simp
  · rw [isPostJson_struct]
    cases equalFold method MethodPost with
    | true => simp [List.any_eq_true]
    | false => simp
  · intro tp htp
    unfold isPostJson
    cases equalFold method MethodPost with
    | false => simp
    | true =>
      cases tp with
      | none => simp
      | some t =>
        cases t with
        | DefineStruct n members => exact absurd rfl (htp n members)
        | _ => simp

/-- Claim C3, witness: the POST row with shared definitions of `TestParametersFromType` and
the rows of `TestIsPostJson` on the struct of `createTestStruct`: the list holds a body
parameter, its schema is the reference to `TestStruct`, and `isPostJson` is true under POST
with a json tag only. -/
theorem body_schema_ref_iff_post_json_witness :
    (∃ p ∈ parametersFromType External.simple { UseDefinitions := true } "POST"
        (some (createTestStruct "TestStruct" true)) { Properties := [] },
      p.In = paramsInBody ∧
      ∃ schema, p.Schema = some schema ∧ schema.Ref = "#/definitions/TestStruct" ∧
        schema.Properties = []) ∧
    isPostJson External.simple { UseDefinitions := true } "POST"
      (some (createTestStruct "TestStruct" true)) = ("TestStruct", true) ∧
    (isPostJson External.simple { UseDefinitions := true } "POST"
      (some (createTestStruct "TestStruct" false))).2 = false ∧
    (isPostJson External.simple { UseDefinitions := true } "GET"
      (some (createTestStruct "TestStruct" true))).2 = false ∧
    (isPostJson External.simple { UseDefinitions := true } "PUT"
      (some (createTestStruct "TestStruct" true))).2 = false := by
  have h := body_schema_ref_iff_post_json External.simple { UseDefinitions := true } "POST"
    "TestStruct" [Member.mk "Username" (Ty.PrimitiveType "string")
        [{ Key := "json", Name := "username", Options := [] }] ""] { Properties := [] }
  have hmem : ∃ m ∈ [Member.mk "Username" (Ty.PrimitiveType "string")
      [{ Key := "json", Name := "username", Options := [] }] ""], m.hasTag tagJson = true :=
    ⟨_, List.mem_singleton.2 rfl, rfl⟩
  refine ⟨?_, h.2.1.2 ⟨rfl, hmem⟩, rfl, rfl, rfl⟩
  refine ⟨_, List.mem_singleton.2 rfl, rfl, ?_⟩
  obtain ⟨schema, hs, hiff, _⟩ := h.1 _ (List.mem_singleton.2 rfl) rfl
  have href := hiff.2 ⟨rfl, rfl, hmem⟩
  exact ⟨schema, hs, href.1, href.2.2.1⟩

/-- Claim C10: for a named struct whose members each carry only a form binding tag, under
every context, `parametersFromType` returns one parameter per member, in member order,
named after the form tags; each has In = query when the method is GET ignoring letter case
and In = formData under any other method; none is a body parameter, and each has
AllowEmptyValue equal to the negation of Required. -/
theorem onlyForm_parameters (ext : External) (ctx : Context) (method rawName : String)
    (ms : List Member) (atDoc : AtDoc) (hform : ∀ m ∈ ms, m.onlyForm = true) :
    (parametersFromType ext ctx method (some (Ty.DefineStruct rawName ms)) atDoc).length =
        ms.length ∧
    (parametersFromType ext ctx method (some (Ty.DefineStruct rawName ms)) atDoc).map
        (fun p => some p.Name) = ms.map (fun m => (m.Tag.Get tagForm).map Tag.Name) ∧
    (equalFold method MethodGet = true →
      ∀ p ∈ parametersFromType ext ctx method (some (Ty.DefineStruct rawName ms)) atDoc,
        p.In = paramsInQuery) ∧
    (equalFold method MethodGet = false →
      ∀ p ∈ parametersFromType ext ctx method (some (Ty.DefineStruct rawName ms)) atDoc,
        p.In = paramsInForm) ∧
    (∀ p ∈ parametersFromType ext ctx method (some (Ty.DefineStruct rawName ms)) atDoc,
      p.In ≠ paramsInBody ∧ p.AllowEmptyValue = !p.Required) := by
  have hnojson : ∀ m ∈ ms, m.hasTag tagJson = false := by
    intro m hm
    have := hform m hm
    simp only [Member.onlyForm, Bool.and_eq_true, Bool.not_eq_true'] at this
    exact this.2
  rw [parametersFromType_struct, structBody_no_json ext ctx method rawName ms atDoc hnojson,
    List.append_nil]
  have hall : ∀ m ∈ ms, ∀ p ∈ memberParams ext ctx method m,
      p.In = formLocation method ∧ p.AllowEmptyValue = !p.Required := by
    intro m hm p hp
    obtain ⟨t, _, hpar⟩ := memberParams_onlyForm ext ctx method m (hform m hm)
    rw [hpar, List.mem_singleton] at hp
    rw [hp, simpleParameter_In, simpleParameter_AllowEmptyValue, simpleParameter_Required]
    exact ⟨rfl, rfl⟩
  have hIn : ∀ p ∈ ms.flatMap (memberParams ext ctx method), p.In = formLocation method ∧
      p.AllowEmptyValue = !p.Required := by
    intro p hp
    rw [List.mem_flatMap] at hp
    obtain ⟨m, hm, hpm⟩ := hp
    exact hall m hm p hpm
  refine ⟨?_, ?_, ?_, ?_, ?_⟩
  · clear hall hIn hnojson
    induction ms with
    | nil => rfl
    | cons m ms ih =>
      obtain ⟨t, _, hpar⟩ := memberParams_onlyForm ext ctx method m
        (hform m (List.mem_cons_self m ms))
      rw [List.flatMap_cons, hpar]
      simp [ih (fun x hx => hform x (List.mem_cons_of_mem m hx))]
  · clear hall hIn hnojson
    induction ms with
    | nil => rfl
    | cons m ms ih =>
      obtain ⟨t, ht, hpar⟩ := memberParams_onlyForm ext ctx method m
        (hform m (List.mem_cons_self m ms))
      rw [List.flatMap_cons, hpar]
      simp [ih (fun x hx => hform x (List.mem_cons_of_mem m hx)), ht, simpleParameter_Name]
  · intro hget p hp
    rw [(hIn p hp).1]
    simp [formLocation, hget]
  · intro hget p hp
    rw [(hIn p hp).1]
    simp [formLocation, hget]
  · intro p hp
    refine ⟨?_, (hIn p hp).2⟩
    rw [(hIn p hp).1]
    exact formLocation_ne_body method

/-- Claim C10, witness: the rows "GET with form" and "POST with form" of
`TestParametersFromType`, on the form-tagged struct of `createTestStruct`: one query
parameter under GET, one formData parameter under POST, named `username`. -/
theorem onlyForm_parameters_witness :
    (parametersFromType External.simple { UseDefinitions := false } "GET"
        (some (createTestStruct "TestStruct" false)) { Properties := [] }).length = 1 ∧
    (∀ p ∈ parametersFromType External.simple { UseDefinitions := false } "GET"
        (some (createTestStruct "TestStruct" false)) { Properties := [] },
      p.In = paramsInQuery) ∧
    (∀ p ∈ parametersFromType External.simple { UseDefinitions := false } "POST"
        (some (createTestStruct "TestStruct" false)) { Properties := [] },
      p.In = paramsInForm) ∧
    (parametersFromType External.simple { UseDefinitions := false } "POST"
        (some (createTestStruct "TestStruct" false)) { Properties := [] }).map
      (fun p => some p.Name) = [some "username"] := by
  have hform : ∀ m ∈ [Member.mk "Username" (Ty.PrimitiveType "string")
      [{ Key := "form", Name := "username", Options := [] }] ""], m.onlyForm = true := by
    intro m hm
    rw [List.mem_singleton] at hm
    subst hm
    rfl
  have hget := onlyForm_parameters External.simple { UseDefinitions := false } "GET"
    "TestStruct" _ { Properties := [] } hform
  have hpost := onlyForm_parameters External.simple { UseDefinitions := false } "POST"
    "TestStruct" _ { Properties := [] } hform
  exact ⟨hget.1, hget.2.2.1 rfl, hpost.2.2.2.1 rfl, hpost.2.1⟩

/-! ## Decimal numerals -/

theorem toDigitsCore_append (fuel n : Nat) (ds : List Char) :
    Nat.toDigitsCore 10 fuel n ds = Nat.toDigitsCore 10 fuel n [] ++ ds := by
  induction fuel generalizing n ds with
  | zero => simp [Nat.toDigitsCore]
  | succ fuel ih =>
    simp only [Nat.toDigitsCore]
    split
    · simp
    · rw [ih (n / 10) ((n % 10).digitChar :: ds), ih (n / 10) [(n % 10).digitChar]]
      simp

theorem toDigitsCore_fuel (f1 f2 n : Nat) (h1 : n < f1) (h2 : n < f2) :
    Nat.toDigitsCore 10 f1 n [] = Nat.toDigitsCore 10 f2 n [] := by
  induction f1 generalizing f2 n with
  | zero => omega
  | succ f1 ih =>
    cases f2 with
    | zero => omega
    | succ f2 =>
      simp only [Nat.toDigitsCore]
      split
      · rfl
      · rename_i hne
        rw [toDigitsCore_append f1, toDigitsCore_append f2,
          ih f2 (n / 10) (by omega) (by omega)]

theorem toDigits_small (n : Nat) (h : n < 10) : Nat.toDigits 10 n = [n.digitChar] := by
  have h0 : n / 10 = 0 := by omega
  have h1 : n % 10 = n := by omega
  simp [Nat.toDigits, Nat.toDigitsCore, h0, h1]

theorem toDigits_step (n : Nat) (h : 10 ≤ n) :
    Nat.toDigits 10 n = Nat.toDigits 10 (n / 10) ++ [(n % 10).digitChar] := by
  have h0 : n / 10 ≠ 0 := by omega
  unfold Nat.toDigits
  conv_lhs => rw [Nat.toDigitsCore]
  simp only [h0, if_false]
  rw [toDigitsCore_append n, toDigitsCore_fuel n (n / 10 + 1) (n / 10) (by omega) (by omega)]

theorem digitVal_digitChar (d : Nat) (h : d < 10) : digitVal d.digitChar = some d := by
  interval_cases d <;> rfl

theorem isDigit_digitChar (d : Nat) (h : d < 10) : isDigit d.digitChar = true := by
  interval_cases d <;> rfl

theorem readDigits_concat (l : List Char) (c : Char) (acc : Nat) :
    readDigits (l ++ [c]) acc =
      (readDigits l acc).bind (fun v => (digitVal c).map (fun d => v * 10 + d)) := by
  induction l generalizing acc with
  | nil =>
    simp only [List.nil_append, readDigits]
    cases digitVal c <;> simp [readDigits]
  | cons x xs ih =>
    simp only [List.cons_append, readDigits]
    cases digitVal x with
    | none => simp
    | some d => simp [ih]

/-- Reading the decimal digits of a number gives the number back. -/
theorem readDigits_toDigits (n : Nat) : readDigits (Nat.toDigits 10 n) 0 = some n := by
  induction n using Nat.strongRecOn with
  | _ n ih =>
    by_cases h : n < 10
    · rw [toDigits_small n h]
      simp [readDigits, digitVal_digitChar n h]
    · rw [toDigits_step n (by omega), readDigits_concat, ih (n / 10) (by omega),
        digitVal_digitChar (n % 10) (by omega)]
      simp only [Option.some_bind, Option.map_some']
      congr 1
      omega

theorem toDigits_all_isDigit (n : Nat) : ∀ c ∈ Nat.toDigits 10 n, isDigit c = true := by
  induction n using Nat.strongRecOn with
  | _ n ih =>
    by_cases h : n < 10
    · rw [toDigits_small n h]
      intro c hc
      rw [List.mem_singleton] at hc
      rw [hc]
      exact isDigit_digitChar n h
    · rw [toDigits_step n (by omega)]
      intro c hc
      rw [List.mem_append, List.mem_singleton] at hc
      rcases hc with hc | hc
      · exact ih (n / 10) (by omega) c hc
      · rw [hc]
        exact isDigit_digitChar (n % 10) (by omega)

theorem toDigits_ne_nil (n : Nat) : Nat.toDigits 10 n ≠ [] := by
  by_cases h : n < 10
  · rw [toDigits_small n h]
    simp
  · rw [toDigits_step n (by omega)]
    simp

/-- Function `strconv.ParseUint` reads the decimal rendering of a number below `2^64`. -/
theorem parseUintL_toDigits (n : Nat) (h : n < 2 ^ 64) :
    parseUintL (Nat.toDigits 10 n) = some n := by
  unfold parseUintL
  cases hl : Nat.toDigits 10 n with
  | nil => exact absurd hl (toDigits_ne_nil n)
  | cons c cs =>
    simp only []
    rw [← hl, readDigits_toDigits]
    show (if n < 2 ^ 64 then some n else none) = some n
    rw [if_pos h]

theorem parseUint_toString (n : Nat) (h : n < 2 ^ 64) : parseUint (toString n) = some n :=
  parseUintL_toDigits n h

/-- Function `strconv.ParseInt` reads the decimal rendering of a number of the signed 64-bit
range. -/
theorem parseInt_toString (n : Int) (hlo : -(2 : Int) ^ 63 ≤ n) (hhi : n < (2 : Int) ^ 63) :
    parseInt (toString n) = some n := by
  cases n with
  | ofNat m =>
    have hm : m < 2 ^ 63 := by
      have : (m : Int) < (2 : Int) ^ 63 := hhi
      exact_mod_cast this
    show parseIntL (Nat.toDigits 10 m) = some (Int.ofNat m)
    unfold parseIntL
    cases hl : Nat.toDigits 10 m with
    | nil => exact absurd hl (toDigits_ne_nil m)
    | cons c cs =>
      have hc : isDigit c = true := toDigits_all_isDigit m c (by rw [hl]; simp)
      have hplus : c ≠ '+' := by
        intro h
        rw [h] at hc
        exact absurd hc (by decide)
      have hminus : c ≠ '-' := by
        intro h
        rw [h] at hc
        exact absurd hc (by decide)
      simp only [hplus, hminus, or_self, if_false, decide_False]
      rw [← hl, parseUintL_toDigits m (by omega)]
      simp only [Bool.not_false, Bool.true_and, decide_eq_true_eq, Bool.false_and,
        Bool.false_eq_true, if_false]
      rw [if_neg (by omega)]
      rfl
  | negSucc m =>
    have hm : m + 1 ≤ 2 ^ 63 := by
      have h1 : -(2 : Int) ^ 63 ≤ Int.negSucc m := hlo
      have h2 : Int.negSucc m = -((m : Int) + 1) := Int.negSucc_eq m
      have h3 : ((m : Int) + 1) ≤ (2 : Int) ^ 63 := by omega
      exact_mod_cast h3
    show parseIntL ('-' :: Nat.toDigits 10 (m + 1)) = some (Int.negSucc m)
    unfold parseIntL
    simp only [or_true, if_true, decide_True]
    rw [parseUintL_toDigits (m + 1) (by omega)]
    simp only [Bool.not_true, Bool.false_and, Bool.false_eq_true, if_false, Bool.true_and,
      decide_eq_true_eq]
    rw [if_neg (by omega)]
    simp [Int.negSucc_eq]

theorem readDigits_some (l : List Char) (acc n : Nat) (h : readDigits l acc = some n) :
    l.all isDigit = true ∧ l.foldl (fun a c => a * 10 + (c.toNat - 48)) acc = n := by
  induction l generalizing acc with
  | nil =>
    simp only [readDigits, Option.some.injEq] at h
    simp [h]
  | cons c cs ih =>
    simp only [readDigits] at h
    cases hd : digitVal c with
    | none => simp [hd] at h
    | some d =>
      rw [hd] at h
      have hc : isDigit c = true ∧ d = c.toNat - 48 := by
        unfold digitVal at hd
        split at hd
        · rename_i hcond
          simp only [Option.some.injEq] at hd
          exact ⟨hcond, hd.symm⟩
        · simp at hd
      obtain ⟨h1, h2⟩ := ih (acc * 10 + d) h
      refine ⟨by simp [List.all_cons, hc.1, h1], ?_⟩
      rw [List.foldl_cons, ← hc.2]
      exact h2

theorem parseUintL_some (l : List Char) (n : Nat) (h : parseUintL l = some n) :
    isNumeral l = true ∧ decimalValue l = n ∧ n < 2 ^ 64 := by
  unfold parseUintL at h
  cases l with
  | nil => simp at h
  | cons c cs =>
    simp only [] at h
    cases hr : readDigits (c :: cs) 0 with
    | none => simp [hr] at h
    | some v =>
      rw [hr] at h
      simp only [] at h
      split at h
      · rename_i hlt
        simp only [Option.some.injEq] at h
        obtain ⟨h1, h2⟩ := readDigits_some (c :: cs) 0 v hr
        subst h
        exact ⟨by simp [isNumeral, h1], h2, hlt⟩
      · simp at h

/-- A string that `strconv.ParseInt` accepts is a valid signed literal. -/
theorem parseInt_some_isSignedLiteral (s : String) (v : Int) (h : parseInt s = some v) :
    isSignedLiteral s = true := by
  unfold parseInt parseIntL at h
  unfold isSignedLiteral
  cases hl : s.data with
  | nil => simp [hl] at h
  | cons c cs =>
    rw [hl] at h
    simp only [] at h
    by_cases hminus : c = '-'
    · subst hminus
      simp only [or_true, if_true, decide_True] at h
      cases hu : parseUintL cs with
      | none => simp [hu] at h
      | some un =>
        rw [hu] at h
        obtain ⟨h1, h2, _⟩ := parseUintL_some cs un hu
        simp only [Bool.not_true, Bool.false_and, Bool.false_eq_true, if_false,
          Bool.true_and, decide_eq_true_eq] at h
        split at h
        · simp at h
        · rename_i hle
          simp only [h1, Bool.true_and, decide_eq_true_eq, h2]
          omega
    · by_cases hplus : c = '+'
      · subst hplus
        simp only [true_or, if_true] at h
        cases hu : parseUintL cs with
        | none => simp [hu] at h
        | some un =>
          rw [hu] at h
          obtain ⟨h1, h2, _⟩ := parseUintL_some cs un hu
          have hd : decide ('+' = '-') = false := by decide
          simp only [hd, Bool.not_false, Bool.true_and, decide_eq_true_eq, Bool.false_and,
            Bool.false_eq_true, if_false] at h
          split at h
          · simp at h
          · rename_i hle
            simp only [h1, Bool.true_and, decide_eq_true_eq, h2]
            omega
      · simp only [hplus, hminus, or_self, if_false, decide_False] at h
        cases hu : parseUintL (c :: cs) with
        | none => simp [hu] at h
        | some un =>
          rw [hu] at h
          obtain ⟨h1, h2, _⟩ := parseUintL_some (c :: cs) un hu
          simp only [Bool.not_false, Bool.true_and, decide_eq_true_eq, Bool.false_and,
            Bool.false_eq_true, if_false] at h
          split at h
          · simp at h
          · rename_i hle
            split
            · rename_i ds heq
              simp only [List.cons.injEq] at heq
              exact absurd heq.1 hminus
            · rename_i ds heq
              simp only [List.cons.injEq] at heq
              exact absurd heq.1 hplus
            · simp only [h1, Bool.true_and, decide_eq_true_eq, h2]
              omega

/-- A string that `strconv.ParseUint` accepts is a valid unsigned literal. -/
theorem parseUint_some_isUnsignedLiteral (s : String) (v : Nat) (h : parseUint s = some v) :
    isUnsignedLiteral s = true := by
  obtain ⟨h1, h2, h3⟩ := parseUintL_some s.data v h
  simp only [isUnsignedLiteral, h1, Bool.true_and, decide_eq_true_eq, h2]
  exact h3

/-- A string that `strconv.ParseBool` accepts is a boolean literal. -/
theorem parseBool_some_isBoolLiteral (s : String) (v : Bool) (h : parseBool s = some v) :
    isBoolLiteral s = true := by
  unfold parseBool at h
  unfold isBoolLiteral
  split at h
  · rename_i hs
    simp only [List.contains_eq_any_beq, List.any_cons, beq_iff_eq, List.any_nil,
      Bool.or_false, Bool.or_eq_true, decide_eq_true_eq]
    tauto
  · split at h
    · rename_i hs
      simp only [List.contains_eq_any_beq, List.any_cons, beq_iff_eq, List.any_nil,
        Bool.or_false, Bool.or_eq_true, decide_eq_true_eq]
      tauto
    · simp at h

theorem parsePrimitiveExample_signed (ext : External) (s kind : String)
    (hk : kind ∈ signedKinds) :
    parsePrimitiveExample ext s kind =
      match parseInt s with
      | some val => Value.int64 val
      | none => Value.str s := by
  have hk2 : kind = "int" ∨ kind = "int8" ∨ kind = "int16" ∨ kind = "int32" ∨
      kind = "int64" := by simpa [signedKinds] using hk
  unfold parsePrimitiveExample
  rw [if_pos hk2]

theorem parsePrimitiveExample_unsigned (ext : External) (s kind : String)
    (hk : kind ∈ unsignedKinds) :
    parsePrimitiveExample ext s kind =
      match parseUint s with
      | some val => Value.uint64 val
      | none => Value.str s := by
  have hk2 : kind = "uint" ∨ kind = "uint8" ∨ kind = "uint16" ∨ kind = "uint32" ∨
      kind = "uint64" := by simpa [unsignedKinds] using hk
  have hk1 : ¬ (kind = "int" ∨ kind = "int8" ∨ kind = "int16" ∨ kind = "int32" ∨
      kind = "int64") := by
    rcases hk2 with h | h | h | h | h <;> rw [h] <;> decide
  unfold parsePrimitiveExample
  rw [if_neg hk1, if_pos hk2]

theorem parsePrimitiveExample_bool (ext : External) (s : String) :
    parsePrimitiveExample ext s "bool" =
      match parseBool s with
      | some val => Value.bool val
      | none => Value.str s := by
  unfold parsePrimitiveExample
  rw [if_neg (by decide), if_neg (by decide), if_neg (by decide), if_pos rfl]

/-- Function `parsePrimitiveExample` returns a typed value or the raw string itself. -/
theorem parsePrimitiveExample_shape (ext : External) (s kind : String) :
    parsePrimitiveExample ext s kind = Value.str s ∨
    (∃ i, parsePrimitiveExample ext s kind = Value.int64 i) ∨
    (∃ n, parsePrimitiveExample ext s kind = Value.uint64 n) ∨
    (∃ f, parsePrimitiveExample ext s kind = Value.float64 f) ∨
    (∃ b, parsePrimitiveExample ext s kind = Value.bool b) := by
  unfold parsePrimitiveExample
  split_ifs
  · cases parseInt s with
    | none => exact Or.inl rfl
    | some i => exact Or.inr (Or.inl ⟨i, rfl⟩)
  · cases parseUint s with
    | none => exact Or.inl rfl
    | some n => exact Or.inr (Or.inr (Or.inl ⟨n, rfl⟩))
  · cases ext.parseFloat s with
    | none => exact Or.inl rfl
    | some f => exact Or.inr (Or.inr (Or.inr (Or.inl ⟨f, rfl⟩)))
  · cases parseBool s with
    | none => exact Or.inl rfl
    | some b => exact Or.inr (Or.inr (Or.inr (Or.inr ⟨b, rfl⟩)))
  · exact Or.inl rfl
  · exact Or.inl rfl

theorem parsePrimitiveExample_ne_nil (ext : External) (s kind : String) :
    parsePrimitiveExample ext s kind ≠ Value.nil := by
  rcases parsePrimitiveExample_shape ext s kind with h | ⟨_, h⟩ | ⟨_, h⟩ | ⟨_, h⟩ | ⟨_, h⟩ <;>
    rw [h] <;> simp

/-! ## Claims on primitive examples -/

/-- Claim C8: integer round trip. For every integer of the signed 64-bit range and every
signed kind name, `parsePrimitiveExample` on the canonical base-10 rendering of the integer
returns that integer as an integer value, not a string; and for every number of the unsigned
64-bit range and every unsigned kind name it returns that unsigned integer. -/
theorem parsePrimitiveExample_roundtrip (ext : External) :
    (∀ (n : Int) (kind : String), kind ∈ signedKinds → -(2 : Int) ^ 63 ≤ n →
      n < (2 : Int) ^ 63 → parsePrimitiveExample ext (toString n) kind = Value.int64 n) ∧
    (∀ (n : Nat) (kind : String), kind ∈ unsignedKinds → n < 2 ^ 64 →
      parsePrimitiveExample ext (toString n) kind = Value.uint64 n) := by
  constructor
  · intro n kind hk hlo hhi
    rw [parsePrimitiveExample_signed ext _ kind hk, parseInt_toString n hlo hhi]
  · intro n kind hk hn
    rw [parsePrimitiveExample_unsigned ext _ kind hk, parseUint_toString n hn]

/-- Claim C8, witness: `"10"` against `int` is the integer 10, the least signed 64-bit integer
is read back against `int64`, and the greatest unsigned one against `uint64`. -/
theorem parsePrimitiveExample_roundtrip_witness :
    parsePrimitiveExample External.simple "10" "int" = Value.int64 10 ∧
    parsePrimitiveExample External.simple "-9223372036854775808" "int64" =
      Value.int64 (-9223372036854775808) ∧
    parsePrimitiveExample External.simple "18446744073709551615" "uint64" =
      Value.uint64 18446744073709551615 :=
  ⟨(parsePrimitiveExample_roundtrip External.simple).1 10 "int" (by decide) (by decide)
      (by decide),
   (parsePrimitiveExample_roundtrip External.simple).1 (-9223372036854775808) "int64"
      (by decide) (by decide) (by decide),
   (parsePrimitiveExample_roundtrip External.simple).2 18446744073709551615 "uint64"
      (by decide) (by decide)⟩

/-- Claim C9: parse-failure fallback. For every signed integer kind, unsigned integer kind
and the boolean kind, a string that is not a valid literal of the kind (the empty string
included) makes `parsePrimitiveExample` return that very string; and for every kind name the
function, which is total, never returns nil and never returns a string other than its
input. -/
theorem parsePrimitiveExample_fallback (ext : External) (s kind : String) :
    (kind ∈ signedKinds → isSignedLiteral s = false →
      parsePrimitiveExample ext s kind = Value.str s) ∧
    (kind ∈ unsignedKinds → isUnsignedLiteral s = false →
      parsePrimitiveExample ext s kind = Value.str s) ∧
    (kind = "bool" → isBoolLiteral s = false →
      parsePrimitiveExample ext s kind = Value.str s) ∧
    parsePrimitiveExample ext s kind ≠ Value.nil ∧
    (∀ t, parsePrimitiveExample ext s kind = Value.str t → t = s) := by
  refine ⟨?_, ?_, ?_, parsePrimitiveExample_ne_nil ext s kind, ?_⟩
  · intro hk hlit
    rw [parsePrimitiveExample_signed ext s kind hk]
    cases hp : parseInt s with
    | none => rfl
    | some v =>
      rw [parseInt_some_isSignedLiteral s v hp] at hlit
      exact absurd hlit (by decide)
  · intro hk hlit
    rw [parsePrimitiveExample_unsigned ext s kind hk]
    cases hp : parseUint s with
    | none => rfl
    | some v =>
      rw [parseUint_some_isUnsignedLiteral s v hp] at hlit
      exact absurd hlit (by decide)
  · intro hk hlit
    subst hk
    rw [parsePrimitiveExample_bool ext s]
    cases hp : parseBool s with
    | none => rfl
    | some v =>
      rw [parseBool_some_isBoolLiteral s v hp] at hlit
      exact absurd hlit (by decide)
  · intro t ht
    rcases parsePrimitiveExample_shape ext s kind with h | ⟨_, h⟩ | ⟨_, h⟩ | ⟨_, h⟩ | ⟨_, h⟩ <;>
      rw [h] at ht <;> simp at ht
    exact ht.symm

/-- Claim C9, witness: `abc` and a numeral one above the signed range against `int64`, a
negative numeral against `uint`, and `yes` against `bool` all come back as the raw string. -/
theorem parsePrimitiveExample_fallback_witness :
    parsePrimitiveExample External.simple "abc" "int64" = Value.str "abc" ∧
    parsePrimitiveExample External.simple "9223372036854775808" "int64" =
      Value.str "9223372036854775808" ∧
    parsePrimitiveExample External.simple "-1" "uint" = Value.str "-1" ∧
    parsePrimitiveExample External.simple "yes" "bool" = Value.str "yes" :=
  ⟨(parsePrimitiveExample_fallback External.simple "abc" "int64").1 (by decide) (by decide),
   (parsePrimitiveExample_fallback External.simple "9223372036854775808" "int64").1
      (by decide) (by decide),
   (parsePrimitiveExample_fallback External.simple "-1" "uint").2.1 (by decide) (by decide),
   (parsePrimitiveExample_fallback External.simple "yes" "bool").2.2.1 rfl (by decide)⟩

/-! ## Array examples -/

theorem collectParts_fold (f : String → Value) (parts : List String) (acc : AnySlice) :
    parts.foldl (fun result part =>
        let part := trimSpace part
        if part = "" then result else AnySlice.append result (f part)) acc =
      if keptParts parts = [] then acc
      else some (acc.getD [] ++ (keptParts parts).map f) := by
  induction parts generalizing acc with
  | nil => simp [keptParts]
  | cons p ps ih =>
    rw [List.foldl_cons, ih]
    by_cases hp : trimSpace p = ""
    · simp [keptParts, hp]
    · have hk : keptParts (p :: ps) = trimSpace p :: keptParts ps := by
        simp [keptParts, hp]
      rw [hk]
      simp only [hp, if_false]
      cases acc with
      | none =>
        by_cases hnil : keptParts ps = [] <;> simp [AnySlice.append, hnil]
      | some xs =>
        by_cases hnil : keptParts ps = [] <;> simp [AnySlice.append, hnil]

/-- The loop of `parseArrayExample` gives the nil slice when no part is kept, and otherwise
the values of the kept parts in order. -/
theorem collectParts_eq (f : String → Value) (parts : List String) :
    collectParts f parts =
      if keptParts parts = [] then none else some ((keptParts parts).map f) := by
  unfold collectParts
  rw [collectParts_fold]
  simp

theorem splitCommaL_ne_nil (l : List Char) : splitCommaL l ≠ [] := by
  cases l with
  | nil => simp [splitCommaL]
  | cons c cs =>
    simp only [splitCommaL]
    split
    · simp
    · cases splitCommaL cs <;> simp [consHead]

/-- Function `parseArrayExample`, with its two loops named. -/
theorem parseArrayExample_eq (ext : External) (s : String) (t : Ty) :
    parseArrayExample ext s t =
      if hasPrefixBracket s && hasSuffixBracket s then
        if trimSpace (stripEnds s) = "" then Value.slice []
        else (collectParts (parseElement ext t) (splitComma (trimSpace (stripEnds s)))).toValue
      else (collectParts (parseElement ext t) (splitComma s)).toValue := by
  have hlen : ∀ x : String, ¬ (splitComma x).length = 0 := by
    intro x
    simp [splitComma, splitCommaL_ne_nil]
  cases t <;> conv_lhs => rw [parseArrayExample]
  all_goals simp only [collectParts, parseElement, hlen, if_false]

theorem trimSpaceL_cons_space (c : Char) (l : List Char) (hc : isSpace c = true) :
    trimSpaceL (c :: l) = trimSpaceL l := by
  unfold trimSpaceL
  rw [List.dropWhile_cons_of_pos hc]

theorem trimSpaceL_concat_space (c : Char) (l : List Char) (hc : isSpace c = true) :
    trimSpaceL (l ++ [c]) = trimSpaceL l := by
  unfold trimSpaceL
  rw [List.dropWhile_append]
  by_cases he : (List.dropWhile isSpace l).isEmpty = true
  · have h0 : List.dropWhile isSpace l = [] := List.isEmpty_iff.1 he
    simp [h0, hc]
  · rw [if_neg he, List.rdropWhile_concat_pos _ _ _ hc]

theorem map_trimSpaceL_consHead (c : Char) (segs : List (List Char)) (hc : isSpace c = true)
    (hne : segs ≠ []) : (consHead c segs).map trimSpaceL = segs.map trimSpaceL := by
  cases segs with
  | nil => exact absurd rfl hne
  | cons seg rest => simp [consHead, trimSpaceL_cons_space c seg hc]

theorem map_trimSpaceL_snocLast (c : Char) (segs : List (List Char)) (hc : isSpace c = true)
    (hne : segs ≠ []) : (snocLast c segs).map trimSpaceL = segs.map trimSpaceL := by
  induction segs with
  | nil => exact absurd rfl hne
  | cons seg rest ih =>
    cases rest with
    | nil => simp [snocLast, trimSpaceL_concat_space c seg hc]
    | cons seg2 rest2 =>
      have h := ih (by simp)
      show trimSpaceL seg :: (snocLast c (seg2 :: rest2)).map trimSpaceL = _
      rw [h]
      rfl

theorem snocLast_consHead (c d : Char) (segs : List (List Char)) (hne : segs ≠ []) :
    snocLast c (consHead d segs) = consHead d (snocLast c segs) := by
  cases segs with
  | nil => exact absurd rfl hne
  | cons seg rest =>
    cases rest with
    | nil => simp [snocLast, consHead]
    | cons seg2 rest2 => simp [snocLast, consHead]

theorem snocLast_ne_nil (c : Char) (segs : List (List Char)) : snocLast c segs ≠ [] := by
  cases segs with
  | nil => simp [snocLast]
  | cons seg rest => cases rest <;> simp [snocLast]

theorem splitCommaL_concat (l : List Char) (c : Char) (hc : c ≠ ',') :
    splitCommaL (l ++ [c]) = snocLast c (splitCommaL l) := by
  induction l with
  | nil => simp [splitCommaL, hc, consHead, snocLast]
  | cons d ds ih =>
    by_cases hd : d = ','
    · have h1 : splitCommaL (d :: ds ++ [c]) = [] :: splitCommaL (ds ++ [c]) := by
        simp [splitCommaL, hd]
      have h2 : splitCommaL (d :: ds) = [] :: splitCommaL ds := by
        simp [splitCommaL, hd]
      rw [h1, h2, ih]
      cases hs : splitCommaL ds with
      | nil => exact absurd hs (splitCommaL_ne_nil ds)
      | cons seg rest => simp [snocLast]
    · have h1 : splitCommaL (d :: ds ++ [c]) = consHead d (splitCommaL (ds ++ [c])) := by
        simp [splitCommaL, hd]
      have h2 : splitCommaL (d :: ds) = consHead d (splitCommaL ds) := by
        simp [splitCommaL, hd]
      rw [h1, h2, ih, snocLast_consHead c d _ (splitCommaL_ne_nil ds)]

theorem isSpace_ne_comma (c : Char) (hc : isSpace c = true) : c ≠ ',' := by
  intro h
  rw [h] at hc
  exact absurd hc (by decide)

theorem split_dropWhile_space (l : List Char) :
    (splitCommaL (l.dropWhile isSpace)).map trimSpaceL = (splitCommaL l).map trimSpaceL := by
  induction l with
  | nil => rfl
  | cons c cs ih =>
    by_cases hc : isSpace c = true
    · rw [List.dropWhile_cons_of_pos hc, ih]
      simp only [splitCommaL, isSpace_ne_comma c hc, if_false]
      rw [map_trimSpaceL_consHead c _ hc (splitCommaL_ne_nil cs)]
    · rw [List.dropWhile_cons_of_neg hc]

theorem split_rdropWhile_space (l : List Char) :
    (splitCommaL (l.rdropWhile isSpace)).map trimSpaceL = (splitCommaL l).map trimSpaceL := by
  induction l using List.reverseRecOn with
  | nil => rfl
  | append_singleton cs c ih =>
    by_cases hc : isSpace c = true
    · rw [List.rdropWhile_concat_pos _ _ _ hc, ih,
        splitCommaL_concat cs c (isSpace_ne_comma c hc),
        map_trimSpaceL_snocLast c _ hc (splitCommaL_ne_nil cs)]
    · rw [List.rdropWhile_concat_neg _ _ _ hc]

/-- Trimming a string before splitting it on commas does not change the trimmed parts. -/
theorem split_trimSpaceL (l : List Char) :
    (splitCommaL (trimSpaceL l)).map trimSpaceL = (splitCommaL l).map trimSpaceL := by
  have h : trimSpaceL l = (l.dropWhile isSpace).rdropWhile isSpace := rfl
  rw [h, split_rdropWhile_space, split_dropWhile_space]

theorem keptParts_splitComma (s : String) :
    keptParts (splitComma s) =
      (((splitCommaL s.data).map trimSpaceL).map String.mk).filter
        (fun part => part ≠ "") := by
  simp [keptParts, splitComma, trimSpace, List.map_map, Function.comp_def]

theorem keptParts_trimSpace (s : String) :
    keptParts (splitComma (trimSpace s)) = keptParts (splitComma s) := by
  rw [keptParts_splitComma, keptParts_splitComma]
  show (((splitCommaL (trimSpaceL s.data)).map trimSpaceL).map String.mk).filter _ = _
  rw [split_trimSpaceL]

theorem bracketed_data (c : String) : ("[" ++ c ++ "]").data = '[' :: (c.data ++ [']']) := by
  simp

theorem hasPrefixBracket_bracketed (c : String) : hasPrefixBracket ("[" ++ c ++ "]") = true := by
  simp [hasPrefixBracket]

theorem hasSuffixBracket_bracketed (c : String) : hasSuffixBracket ("[" ++ c ++ "]") = true := by
  unfold hasSuffixBracket
  rw [bracketed_data, ← List.cons_append, List.getLast?_concat]
  simp

theorem stripEnds_bracketed (c : String) : stripEnds ("[" ++ c ++ "]") = c := by
  unfold stripEnds
  rw [bracketed_data]
  simp [List.dropLast_concat]

theorem bracketed_ne_empty (c : String) : "[" ++ c ++ "]" ≠ "" := by
  intro h
  have := congrArg String.data h
  rw [bracketed_data] at this
  simp at this

/-- Function `parseExampleValue` on an array type and a bracketed string. -/
theorem parseExampleValue_bracketed (ext : External) (c rawName : String) (t : Ty) :
    parseExampleValue ext ("[" ++ c ++ "]") (Ty.ArrayType rawName t) =
      if trimSpace c = "" then Value.slice []
      else (collectParts (parseElement ext t) (splitComma c)).toValue := by
  unfold parseExampleValue
  rw [if_neg (bracketed_ne_empty c)]
  simp only []
  rw [parseArrayExample_eq, hasPrefixBracket_bracketed, hasSuffixBracket_bracketed,
    stripEnds_bracketed]
  simp only [Bool.and_self, if_true]
  rw [collectParts_eq, collectParts_eq, keptParts_trimSpace]

/-- Function `parseExampleValue` on an array type and a string that is not in brackets. -/
theorem parseExampleValue_plain (ext : External) (c rawName : String) (t : Ty)
    (hne : c ≠ "") (hplain : (hasPrefixBracket c && hasSuffixBracket c) = false) :
    parseExampleValue ext c (Ty.ArrayType rawName t) =
      (collectParts (parseElement ext t) (splitComma c)).toValue := by
  unfold parseExampleValue
  rw [if_neg hne]
  simp only []
  rw [parseArrayExample_eq, hplain]
  simp

/-- Claim C4, the code at the failing input: `"[[1,2],[3,4]]"` against array of array of
int64 is cut at every comma before the inner arrays are parsed, so the result is a sequence
of four one-element sequences of raw strings, not the sequence of `[1,2]` and `[3,4]`. -/
theorem nested_array_example_cut_at_commas (ext : External) :
    parseExampleValue ext "[[1,2],[3,4]]"
        (Ty.ArrayType "[][]int64" (Ty.ArrayType "[]int64" (Ty.PrimitiveType "int64"))) =
      Value.slice [Value.slice [Value.str "[1"], Value.slice [Value.str "2]"],
        Value.slice [Value.str "[3"], Value.slice [Value.str "4]"]] ∧
    parseExampleValue ext "[[1,2],[3,4]]"
        (Ty.ArrayType "[][]int64" (Ty.ArrayType "[]int64" (Ty.PrimitiveType "int64"))) ≠
      Value.slice [Value.slice [Value.int64 1, Value.int64 2],
        Value.slice [Value.int64 3, Value.int64 4]] := by
  have h : parseExampleValue ext "[[1,2],[3,4]]"
        (Ty.ArrayType "[][]int64" (Ty.ArrayType "[]int64" (Ty.PrimitiveType "int64"))) =
      Value.slice [Value.slice [Value.str "[1"], Value.slice [Value.str "2]"],
        Value.slice [Value.str "[3"], Value.slice [Value.str "4]"]] := rfl
  refine ⟨h, ?_⟩
  rw [h]
  simp

/-- Claim C5, counterexample: against array of int64, the empty content gives an empty
sequence in brackets and nil without; a blank content gives an empty sequence in brackets and
the nil slice without; and a content that is itself in brackets is cut into raw strings
inside further brackets and parsed into integers without. -/
theorem bracket_presence_changes_output :
    parseExampleValue External.simple ("[" ++ "" ++ "]")
        (Ty.ArrayType "[]int64" (Ty.PrimitiveType "int64")) ≠
      parseExampleValue External.simple "" (Ty.ArrayType "[]int64" (Ty.PrimitiveType "int64")) ∧
    parseExampleValue External.simple ("[" ++ " " ++ "]")
        (Ty.ArrayType "[]int64" (Ty.PrimitiveType "int64")) ≠
      parseExampleValue External.simple " "
        (Ty.ArrayType "[]int64" (Ty.PrimitiveType "int64")) ∧
    parseExampleValue External.simple ("[" ++ "[1,2]" ++ "]")
        (Ty.ArrayType "[]int64" (Ty.PrimitiveType "int64")) ≠
      parseExampleValue External.simple "[1,2]"
        (Ty.ArrayType "[]int64" (Ty.PrimitiveType "int64")) := by
  have h1 : parseExampleValue External.simple ("[" ++ "" ++ "]")
      (Ty.ArrayType "[]int64" (Ty.PrimitiveType "int64")) = Value.slice [] := rfl
  have h2 : parseExampleValue External.simple ""
      (Ty.ArrayType "[]int64" (Ty.PrimitiveType "int64")) = Value.nil := rfl
  have h3 : parseExampleValue External.simple ("[" ++ " " ++ "]")
      (Ty.ArrayType "[]int64" (Ty.PrimitiveType "int64")) = Value.slice [] := rfl
  have h4 : parseExampleValue External.simple " "
      (Ty.ArrayType "[]int64" (Ty.PrimitiveType "int64")) = Value.nilSlice := rfl
  have h5 : parseExampleValue External.simple ("[" ++ "[1,2]" ++ "]")
      (Ty.ArrayType "[]int64" (Ty.PrimitiveType "int64")) =
      Value.slice [Value.str "[1", Value.str "2]"] := rfl
  have h6 : parseExampleValue External.simple "[1,2]"
      (Ty.ArrayType "[]int64" (Ty.PrimitiveType "int64")) =
      Value.slice [Value.int64 1, Value.int64 2] := rfl
  rw [h1, h2, h3, h4, h5, h6]
  simp

theorem trimSpace_empty : trimSpace "" = "" := rfl

/-- Claim C5, amended: for every primitive element type and every content string that is not
blank (not empty after trimming) and not itself in brackets, the bracketed form and the bare
form have the same example value. -/
theorem bracket_presence_same_output (ext : External) (c rawName kind : String)
    (hcontent : trimSpace c ≠ "")
    (hplain : (hasPrefixBracket c && hasSuffixBracket c) = false) :
    parseExampleValue ext ("[" ++ c ++ "]") (Ty.ArrayType rawName (Ty.PrimitiveType kind)) =
      parseExampleValue ext c (Ty.ArrayType rawName (Ty.PrimitiveType kind)) := by
  have hne : c ≠ "" := by
    intro h
    rw [h] at hcontent
    exact hcontent trimSpace_empty
  rw [parseExampleValue_bracketed, parseExampleValue_plain ext c rawName _ hne hplain,
    if_neg hcontent]

/-- Claim C5, witness: `"[1, 2,3]"` and `"1, 2,3"` against array of int64 both give the
integers 1, 2, 3. -/
theorem bracket_presence_same_output_witness :
    parseExampleValue External.simple ("[" ++ "1, 2,3" ++ "]")
        (Ty.ArrayType "[]int64" (Ty.PrimitiveType "int64")) =
      parseExampleValue External.simple "1, 2,3"
        (Ty.ArrayType "[]int64" (Ty.PrimitiveType "int64")) ∧
    parseExampleValue External.simple "1, 2,3"
        (Ty.ArrayType "[]int64" (Ty.PrimitiveType "int64")) =
      Value.slice [Value.int64 1, Value.int64 2, Value.int64 3] :=
  ⟨bracket_presence_same_output External.simple "1, 2,3" "[]int64" "int64" (by decide)
    (by decide), rfl⟩

/-! ## Doc-level and per-field examples -/

theorem splitCommaL_no_comma (seg : List Char) (h : ∀ c ∈ seg, c ≠ ',') :
    splitCommaL seg = [seg] := by
  induction seg with
  | nil => rfl
  | cons c cs ih =>
    have hc : c ≠ ',' := h c (List.mem_cons_self c cs)
    simp only [splitCommaL, hc, if_false]
    rw [ih (fun x hx => h x (List.mem_cons_of_mem c hx))]
    rfl

theorem splitCommaL_append_comma (seg rest : List Char) (h : ∀ c ∈ seg, c ≠ ',') :
    splitCommaL (seg ++ ',' :: rest) = seg :: splitCommaL rest := by
  induction seg with
  | nil => simp [splitCommaL]
  | cons c cs ih =>
    have hc : c ≠ ',' := h c (List.mem_cons_self c cs)
    have h1 : splitCommaL (c :: cs ++ ',' :: rest) =
        consHead c (splitCommaL (cs ++ ',' :: rest)) := by
      simp [splitCommaL, hc]
    rw [h1, ih (fun x hx => h x (List.mem_cons_of_mem c hx))]
    rfl

theorem intercalate_go_data (acc sep : String) (strs : List String) :
    (String.intercalate.go acc sep strs).data =
      acc.data ++ strs.flatMap (fun a => sep.data ++ a.data) := by
  induction strs generalizing acc with
  | nil => simp [String.intercalate.go]
  | cons a rest ih => simp [String.intercalate.go, ih, List.append_assoc]

/-- Splitting a comma-joined list of strings without commas gives the strings back. -/
theorem splitCommaL_joined (a : String) (rest : List String)
    (ha : ∀ c ∈ a.data, c ≠ ',') (hrest : ∀ b ∈ rest, ∀ c ∈ b.data, c ≠ ',') :
    splitCommaL (a.data ++ rest.flatMap (fun b => ",".data ++ b.data)) =
      a.data :: rest.map String.data := by
  induction rest generalizing a with
  | nil => simpa using splitCommaL_no_comma a.data ha
  | cons b bs ih =>
    have hb := hrest b (List.mem_cons_self b bs)
    have h := ih b hb (fun x hx => hrest x (List.mem_cons_of_mem b hx))
    rw [List.flatMap_cons]
    show splitCommaL (a.data ++ ',' :: (b.data ++ _)) = _
    rw [splitCommaL_append_comma a.data _ ha, h]
    rfl

theorem trimSpaceL_no_space (l : List Char) (h : ∀ c ∈ l, isSpace c = false) :
    trimSpaceL l = l := by
  unfold trimSpaceL
  have h1 : l.dropWhile isSpace = l := by
    cases l with
    | nil => rfl
    | cons c cs =>
      exact List.dropWhile_cons_of_neg (by simp [h c (List.mem_cons_self c cs)])
  rw [h1, List.rdropWhile_eq_self_iff]
  intro hl
  simp [h _ (List.getLast_mem hl)]

/-- The characters of the decimal rendering of an integer are digits and the minus sign. -/
theorem toString_int_chars (n : Int) :
    (toString n).data ≠ [] ∧ ∀ c ∈ (toString n).data, isDigit c = true ∨ c = '-' := by
  cases n with
  | ofNat m =>
    show Nat.toDigits 10 m ≠ [] ∧ ∀ c ∈ Nat.toDigits 10 m, isDigit c = true ∨ c = '-'
    exact ⟨toDigits_ne_nil m, fun c hc => Or.inl (toDigits_all_isDigit m c hc)⟩
  | negSucc m =>
    show '-' :: Nat.toDigits 10 (m + 1) ≠ [] ∧
      ∀ c ∈ '-' :: Nat.toDigits 10 (m + 1), isDigit c = true ∨ c = '-'
    refine ⟨by simp, fun c hc => ?_⟩
    rw [List.mem_cons] at hc
    rcases hc with hc | hc
    · exact Or.inr hc
    · exact Or.inl (toDigits_all_isDigit (m + 1) c hc)

theorem isDigit_plain (c : Char) (h : isDigit c = true ∨ c = '-') :
    c ≠ ',' ∧ isSpace c = false := by
  rcases h with h | h
  · simp only [isDigit, Bool.and_eq_true, decide_eq_true_eq] at h
    refine ⟨?_, ?_⟩
    · intro hc
      rw [hc] at h
      exact absurd h (by decide)
    · simp only [isSpace, Bool.or_eq_false_iff, decide_eq_false_iff_not, Bool.and_eq_false_iff,
        Bool.or_eq_true, Bool.and_eq_true, decide_eq_true_eq]
      omega
  · rw [h]
    exact ⟨by decide, by decide⟩

theorem trimSpace_toString_int (n : Int) :
    trimSpace (toString n) = toString n ∧ toString n ≠ "" := by
  obtain ⟨hne, hch⟩ := toString_int_chars n
  constructor
  · show String.mk (trimSpaceL (toString n).data) = toString n
    rw [trimSpaceL_no_space _ (fun c hc => (isDigit_plain c (hch c hc)).2)]
  · intro h
    rw [h] at hne
    exact hne rfl

/-- The content of the bracketed rendering of a non-empty list of integers is split into the
renderings of the integers. -/
theorem splitComma_rendering (ns : List Int) (hne : ns ≠ []) :
    splitComma (String.intercalate "," (ns.map toString)) = ns.map toString := by
  cases ns with
  | nil => exact absurd rfl hne
  | cons n rest =>
    have hcomma : ∀ k : Int, ∀ c ∈ (toString k).data, c ≠ ',' :=
      fun k c hc => (isDigit_plain c ((toString_int_chars k).2 c hc)).1
    unfold splitComma
    simp only [List.map_cons, String.intercalate]
    rw [intercalate_go_data,
      splitCommaL_joined (toString n) (rest.map toString) (hcomma n)
        (by
          intro b hb
          rw [List.mem_map] at hb
          obtain ⟨k, _, hk⟩ := hb
          rw [← hk]
          exact hcomma k)]
    simp [List.map_map, Function.comp_def]

theorem keptParts_rendering (ns : List Int) :
    keptParts (ns.map toString) = ns.map toString := by
  unfold keptParts
  rw [List.map_map, List.filter_eq_self.2]
  · apply List.map_congr_left
    intro n _
    exact (trimSpace_toString_int n).1
  · intro s hs
    rw [List.mem_map] at hs
    obtain ⟨n, _, hn⟩ := hs
    rw [← hn]
    simp only [Function.comp_apply, (trimSpace_toString_int n).1]
    simpa using (trimSpace_toString_int n).2

theorem trimSpace_rendering (ns : List Int) (hne : ns ≠ []) :
    trimSpace (String.intercalate "," (ns.map toString)) ≠ "" := by
  intro h
  have h1 : keptParts (splitComma (trimSpace (String.intercalate "," (ns.map toString)))) =
      ns.map toString := by
    rw [keptParts_trimSpace, splitComma_rendering ns hne, keptParts_rendering]
  rw [h] at h1
  have h2 : keptParts (splitComma "") = [] := by decide
  rw [h2] at h1
  exact hne (List.map_eq_nil_iff.1 h1.symm)

/-- The bracketed rendering of a non-empty list of signed 64-bit integers, against array of
int64, is the sequence of these integers. -/
theorem parseExampleValue_rendering (ext : External) (rawName : String) (ns : List Int)
    (hne : ns ≠ []) (hrange : ∀ n ∈ ns, -(2 : Int) ^ 63 ≤ n ∧ n < (2 : Int) ^ 63) :
    parseExampleValue ext (renderIntArray ns)
        (Ty.ArrayType rawName (Ty.PrimitiveType "int64")) =
      Value.slice (ns.map Value.int64) := by
  unfold renderIntArray
  rw [parseExampleValue_bracketed, if_neg (trimSpace_rendering ns hne), collectParts_eq,
    splitComma_rendering ns hne, keptParts_rendering]
  have hmap : ns.map toString ≠ [] := by simpa using hne
  rw [if_neg hmap, List.map_map]
  show Value.slice _ = _
  congr 1
  apply List.map_congr_left
  intro n hn
  show parsePrimitiveExample ext (toString n) "int64" = Value.int64 n
  rw [parsePrimitiveExample_signed ext _ "int64" (by decide),
    parseInt_toString n (hrange n hn).1 (hrange n hn).2]

theorem renderIntArray_ne_empty (ns : List Int) : renderIntArray ns ≠ "" :=
  bracketed_ne_empty _

theorem parseExampleValue_slice_isNil (vs : List Value) :
    (Value.slice vs).isNil = false := rfl

/-- Claim C7: for every non-empty list of signed 64-bit integers, every method and every
context, `parametersFromType` on the request type array of int64, with a doc-level
`reqExample` that reads as the bracketed, comma-separated decimal rendering of the list,
returns one body parameter whose schema example is the sequence of these integers. -/
theorem array_request_example (ext : External) (ctx : Context) (method rawName : String)
    (atDoc : AtDoc) (ns : List Int) (hne : ns ≠ [])
    (hrange : ∀ n ∈ ns, -(2 : Int) ^ 63 ≤ n ∧ n < (2 : Int) ^ 63)
    (hdoc : ext.getStringFromKVOrDefault atDoc.Properties propertyKeyReqExample "" =
      renderIntArray ns) :
    ∃ p schema,
      parametersFromType ext ctx method
        (some (Ty.ArrayType rawName (Ty.PrimitiveType "int64"))) atDoc = [p] ∧
      p.In = paramsInBody ∧ p.Schema = some schema ∧
      schema.Example = Value.slice (ns.map Value.int64) := by
  refine ⟨_, _, rfl, rfl, rfl, ?_⟩
  unfold attachReqExample
  simp only [hdoc, ne_eq, renderIntArray_ne_empty, not_false_eq_true, if_true,
    parseExampleValue_rendering ext rawName ns hne hrange, parseExampleValue_slice_isNil,
    Bool.not_false]

/-- Claim C7, witness: `TestParametersFromType_WithAtDocExample`, the doc-level example
`"[1,2,3,4,5]"` on the request type `[]int64`. -/
theorem array_request_example_witness :
    ∃ p schema,
      parametersFromType External.simple { UseDefinitions := false } "POST"
        (some (Ty.ArrayType "[]int64" (Ty.PrimitiveType "int64")))
        { Properties := [("reqExample", "[1,2,3,4,5]")] } = [p] ∧
      p.In = paramsInBody ∧ p.Schema = some schema ∧
      schema.Example = Value.slice [Value.int64 1, Value.int64 2, Value.int64 3,
        Value.int64 4, Value.int64 5] :=
  array_request_example External.simple { UseDefinitions := false } "POST" "[]int64"
    { Properties := [("reqExample", "[1,2,3,4,5]")] } [1, 2, 3, 4, 5] (by decide)
    (by decide) (by decide)

theorem find_filter_other {β : Type} (m : List (String × β)) (k k2 : String)
    (hne : k ≠ k2) :
    (m.filter (fun p => p.1 != k)).find? (fun p => p.1 == k2) =
      m.find? (fun p => p.1 == k2) := by
  induction m with
  | nil => rfl
  | cons p ps ih =>
    by_cases hp : p.1 = k
    · have hp2 : ¬ p.1 = k2 := fun h => hne (hp.symm.trans h)
      have h1 : (p :: ps).filter (fun p => p.1 != k) = ps.filter (fun p => p.1 != k) := by
        simp [List.filter_cons, hp]
      have h2 : (p :: ps).find? (fun p => p.1 == k2) = ps.find? (fun p => p.1 == k2) := by
        simp [List.find?_cons, hp2]
      rw [h1, h2, ih]
    · have h1 : (p :: ps).filter (fun p => p.1 != k) =
          p :: ps.filter (fun p => p.1 != k) := by
        simp [List.filter_cons, hp]
      rw [h1]
      by_cases hp2 : p.1 = k2
      · simp [List.find?_cons, hp2]
      · have h2 : ∀ l : List (String × β),
            (p :: l).find? (fun p => p.1 == k2) = l.find? (fun p => p.1 == k2) := by
          intro l
          simp [List.find?_cons, hp2]
        rw [h2, h2, ih]

theorem find_filter_self {β : Type} (m : List (String × β)) (k : String) :
    (m.filter (fun p => p.1 != k)).find? (fun p => p.1 == k) = none := by
  rw [List.find?_eq_none]
  intro x hx
  have := (List.mem_filter.1 hx).2
  simpa using this

theorem mapGet_mapSet_self {β : Type} (m : List (String × β)) (k : String) (v : β) :
    mapGet (mapSet m k v) k = some v := by
  unfold mapGet mapSet
  rw [List.find?_append, find_filter_self]
  simp

theorem mapGet_mapSet_other {β : Type} (m : List (String × β)) (k k2 : String) (v : β)
    (hne : k ≠ k2) : mapGet (mapSet m k v) k2 = mapGet m k2 := by
  unfold mapGet mapSet
  have hk : [(k, v)].find? (fun p => p.1 == k2) = none := by
    simp [List.find?_cons, hne]
  rw [List.find?_append, find_filter_other m k k2 hne, hk]
  simp

/-- The property that the walk leaves under a json name is the one of the last member with
that json name. -/
theorem walkMembers_property (ext : External) (ctx : Context) (method : String)
    (pre post : List Member) (m : Member) (jsonTag : Tag)
    (hjson : m.Tag.Get tagJson = some jsonTag)
    (hlast : ∀ m2 ∈ post, ∀ t, m2.Tag.Get tagJson = some t → t.Name ≠ jsonTag.Name) :
    mapGet (walkMembers ext ctx method (pre ++ m :: post)).properties jsonTag.Name =
      some (jsonProperty ext ctx m jsonTag (m.Tag.Get "example")) := by
  induction post using List.reverseRecOn with
  | nil =>
    rw [walkMembers_concat, memberCallback_properties, hjson]
    exact mapGet_mapSet_self _ _ _
  | append_singleton post m2 ih =>
    have hih := ih (fun x hx t ht => hlast x (List.mem_append_left _ hx) t ht)
    have hassoc : pre ++ m :: (post ++ [m2]) = (pre ++ m :: post) ++ [m2] := by simp
    rw [hassoc, walkMembers_concat, memberCallback_properties]
    cases h2 : m2.Tag.Get tagJson with
    | none => exact hih
    | some t =>
      simp only []
      rw [mapGet_mapSet_other _ _ _ _ (hlast m2 (by simp) t h2)]
      exact hih

theorem parseArrayExample_isNil (ext : External) (s : String) (t : Ty) :
    (parseArrayExample ext s t).isNil = false := by
  rw [parseArrayExample_eq]
  split_ifs
  · rfl
  · cases collectParts (parseElement ext t) (splitComma (trimSpace (stripEnds s))) <;> rfl
  · cases collectParts (parseElement ext t) (splitComma s) <;> rfl

theorem parsePrimitiveExample_isNil (ext : External) (s kind : String) :
    (parsePrimitiveExample ext s kind).isNil = false := by
  rcases parsePrimitiveExample_shape ext s kind with h | ⟨_, h⟩ | ⟨_, h⟩ | ⟨_, h⟩ | ⟨_, h⟩ <;>
    rw [h] <;> rfl

/-- A non-empty example string never gives the nil interface. -/
theorem parseExampleValue_isNil (ext : External) (s : String) (hs : s ≠ "") :
    ∀ t : Ty, (parseExampleValue ext s t).isNil = false
  | Ty.PrimitiveType rawName => by
    rw [parseExampleValue, if_neg hs]
    exact parsePrimitiveExample_isNil ext s rawName
  | Ty.ArrayType _ value => by
    rw [parseExampleValue, if_neg hs]
    exact parseArrayExample_isNil ext s value
  | Ty.MapType _ _ _ => by
    rw [parseExampleValue, if_neg hs]
    rfl
  | Ty.DefineStruct _ _ => by
    rw [parseExampleValue, if_neg hs]
    rfl
  | Ty.NestedStruct _ _ => by
    rw [parseExampleValue, if_neg hs]
    rfl
  | Ty.PointerType _ inner => by
    rw [parseExampleValue, if_neg hs]
    exact parseExampleValue_isNil ext s hs inner

/-- Claim C11: for every array request type, method, context and doc block,
`parametersFromType` returns exactly one parameter; it has In = body, Name = body and
Required = true, and its schema has the type list `[array]` and the items that the mapper
gives for that array; so no header, path, query or formData parameter is returned. -/
theorem array_request_single_body (ext : External) (ctx : Context)
    (method rawName : String) (value : Ty) (atDoc : AtDoc) :
    ∃ p schema,
      parametersFromType ext ctx method (some (Ty.ArrayType rawName value)) atDoc = [p] ∧
      p.In = paramsInBody ∧ p.Name = paramsInBody ∧ p.Required = true ∧
      p.Schema = some schema ∧ schema.Type_ = [swaggerTypeArray] ∧
      schema.Items = ext.itemsFromGoType ctx (Ty.ArrayType rawName value) ∧
      schema.Ref = "" ∧ schema.Properties = [] := by
  obtain ⟨h1, h2, h3, _, h5⟩ := attachReqExample_fields ext atDoc (Ty.ArrayType rawName value)
    { Schema.zero with
      Type_ := [swaggerTypeArray]
      Items := ext.itemsFromGoType ctx (Ty.ArrayType rawName value) }
  exact ⟨_, _, rfl, rfl, rfl, rfl, rfl, h2, h5, h1, h3⟩

/-- Claim C17: for every method, context and doc block, `parametersFromType` returns the
empty list for the nil request type and for a request type that is a bare primitive, a map
or a pointer; being a total function it never fails. -/
theorem no_parameters_without_struct (ext : External) (ctx : Context) (method : String)
    (atDoc : AtDoc) :
    parametersFromType ext ctx method none atDoc = [] ∧
    (∀ rawName, parametersFromType ext ctx method (some (Ty.PrimitiveType rawName)) atDoc =
      []) ∧
    (∀ rawName key value,
      parametersFromType ext ctx method (some (Ty.MapType rawName key value)) atDoc = []) ∧
    (∀ rawName inner,
      parametersFromType ext ctx method (some (Ty.PointerType rawName inner)) atDoc = []) :=
  ⟨rfl, fun _ => rfl, fun _ _ _ => rfl, fun _ _ => rfl⟩

/-- Claim C18, counterexample: under GET without shared definitions, the anonymous struct
with a form-tagged and a json-tagged member gets no parameter, while the named struct with
the same members gets a query parameter and a body parameter. -/
theorem anonymous_struct_not_walked_example :
    parametersFromType External.simple { UseDefinitions := false } "GET"
      (some (Ty.NestedStruct "" formAndJsonMembers)) { Properties := [] } = [] ∧
    (parametersFromType External.simple { UseDefinitions := false } "GET"
      (some (Ty.DefineStruct "Req" formAndJsonMembers)) { Properties := [] }).map
      (fun p => p.In) = [paramsInQuery, paramsInBody] ∧
    parametersFromType External.simple { UseDefinitions := false } "GET"
      (some (Ty.NestedStruct "" formAndJsonMembers)) { Properties := [] } ≠
    parametersFromType External.simple { UseDefinitions := false } "GET"
      (some (Ty.DefineStruct "Req" formAndJsonMembers)) { Properties := [] } := by
  refine ⟨rfl, rfl, ?_⟩
  intro h
  have h2 := congrArg List.length h
  have h3 : (parametersFromType External.simple { UseDefinitions := false } "GET"
      (some (Ty.DefineStruct "Req" formAndJsonMembers)) { Properties := [] }).length = 2 := rfl
  have h4 : (parametersFromType External.simple { UseDefinitions := false } "GET"
      (some (Ty.NestedStruct "" formAndJsonMembers)) { Properties := [] }).length = 0 := rfl
  rw [h3, h4] at h2
  exact absurd h2 (by decide)

/-- Claim C18, amended: an anonymous struct request type is not walked; for every member
list, method, context and doc block, `parametersFromType` on the anonymous struct returns
the empty list, whatever tags its members carry. -/
theorem anonymous_struct_no_parameters (ext : External) (ctx : Context)
    (method rawName : String) (ms : List Member) (atDoc : AtDoc) :
    parametersFromType ext ctx method (some (Ty.NestedStruct rawName ms)) atDoc = [] :=
  rfl

theorem responseSchema_Example (ext : External) (ctx : Context) (atDoc : AtDoc)
    (props : Schema) (v : Value) (hv : v.isNil = false) :
    (responseSchema ext ctx atDoc props v).Example = v := by
  simp [responseSchema, hv]

theorem responseSchema_Example_nil (ext : External) (ctx : Context) (atDoc : AtDoc)
    (props : Schema) : (responseSchema ext ctx atDoc props Value.nil).Example = Value.nil := by
  simp [responseSchema, Value.isNil]

/-- Claim C12: for every non-nil response type, every context and every doc block whose
`respExample` reads as a non-empty string, `jsonResponseFromType` returns responses with
exactly one status entry, at 200, whose schema example is `parseExampleValue` of that string
against the response type, in the reference branch and in the inline branch alike; for
`"[10,20,30]"` against array of int64 this is the integer sequence 10, 20, 30. -/
theorem response_example_attached (ext : External) (ctx : Context) (atDoc : AtDoc) (tp : Ty)
    (e : String) (he : e ≠ "")
    (hdoc : ext.getStringFromKVOrDefault atDoc.Properties propertyKeyRespExample "" = e) :
    (∃ schema,
      (jsonResponseFromType ext ctx atDoc (some tp)).StatusCodeResponses =
        [(200, { Description := "", Schema := some schema })] ∧
      schema.Example = parseExampleValue ext e tp) ∧
    parseExampleValue ext "[10,20,30]" (Ty.ArrayType "[]int64" (Ty.PrimitiveType "int64")) =
      Value.slice [Value.int64 10, Value.int64 20, Value.int64 30] := by
  refine ⟨?_, rfl⟩
  have hnil := parseExampleValue_isNil ext e he tp
  unfold jsonResponseFromType
  simp only [hdoc, ne_eq, he, not_false_eq_true, if_true]
  cases ctx.UseDefinitions with
  | false =>
    exact ⟨_, rfl, responseSchema_Example ext ctx atDoc _ _ hnil⟩
  | true =>
    cases hc : (ext.containsStruct tp).2 with
    | false =>
      simp only [if_true, hc, Bool.false_eq_true, if_false]
      exact ⟨_, rfl, responseSchema_Example ext ctx atDoc _ _ hnil⟩
    | true =>
      simp only [if_true, hc]
      exact ⟨_, rfl, responseSchema_Example ext ctx atDoc _ _ hnil⟩

/-- Claim C12, witness: `TestJsonResponseFromType_WithAtDocExample`, the doc-level example
`"[10,20,30]"` on the response type `[]int64`, and the same doc block on a named struct
with shared definitions, where the raw string is the example of the reference schema. -/
theorem response_example_attached_witness :
    (∃ schema,
      (jsonResponseFromType External.simple { UseDefinitions := false }
        { Properties := [("respExample", "[10,20,30]")] }
        (some (Ty.ArrayType "[]int64" (Ty.PrimitiveType "int64")))).StatusCodeResponses =
        [(200, { Description := "", Schema := some schema })] ∧
      schema.Example = Value.slice [Value.int64 10, Value.int64 20, Value.int64 30]) ∧
    (∃ schema,
      (jsonResponseFromType External.simple { UseDefinitions := true }
        { Properties := [("respExample", "[10,20,30]")] }
        (some (createTestStruct "TestStruct" true))).StatusCodeResponses =
        [(200, { Description := "", Schema := some schema })] ∧
      schema.Example = Value.str "[10,20,30]") :=
  ⟨(response_example_attached External.simple { UseDefinitions := false }
      { Properties := [("respExample", "[10,20,30]")] }
      (Ty.ArrayType "[]int64" (Ty.PrimitiveType "int64")) "[10,20,30]" (by decide) rfl).1,
   (response_example_attached External.simple { UseDefinitions := true }
      { Properties := [("respExample", "[10,20,30]")] }
      (createTestStruct "TestStruct" true) "[10,20,30]" (by decide) rfl).1⟩

/-- Claim C19: for every context and doc block, also one that carries a `respExample`,
`jsonResponseFromType` on the nil response type returns responses with exactly one status
entry, keyed 200, with the empty description and the empty schema: no type, no properties,
no reference, no example. -/
theorem nil_response_empty_schema (ext : External) (ctx : Context) (atDoc : AtDoc) :
    (jsonResponseFromType ext ctx atDoc none).StatusCodeResponses =
      [(200, { Description := "", Schema := some Schema.zero })] ∧
    (jsonResponseFromType ext ctx atDoc none).Default = none ∧
    Schema.zero.Type_ = [] ∧ Schema.zero.Properties = [] ∧ Schema.zero.Ref = "" ∧
    Schema.zero.Example = Value.nil ∧ Schema.zero.Items = none ∧
    Schema.zero.Required = [] ∧ Schema.zero.Description = "" :=
  ⟨rfl, rfl, rfl, rfl, rfl, rfl, rfl, rfl, rfl⟩

/-! ## Claims on the shape of array and composite examples -/

theorem trimSpaceL_all_space (l : List Char) (h : l.all isSpace = true) :
    trimSpaceL l = [] := by
  unfold trimSpaceL
  have h1 : l.dropWhile isSpace = [] := by
    rw [List.dropWhile_eq_nil_iff]
    intro c hc
    exact List.all_eq_true.1 h c hc
  rw [h1]
  rfl

theorem trimSpace_all_space (ws : String) (h : ws.data.all isSpace = true) :
    trimSpace ws = "" := by
  show String.mk (trimSpaceL ws.data) = ""
  rw [trimSpaceL_all_space ws.data h]

theorem parseExampleValue_empty (ext : External) (t : Ty) :
    parseExampleValue ext "" t = Value.nil := by
  cases t <;> rw [parseExampleValue] <;> rfl

/-- Claim C13, counterexample: against array of int64, the empty string gives the nil
interface from `parseExampleValue`, and the strings `","`, `" , "` and `"[,]"`, none of which
has a non-empty segment, give the nil slice, not the empty sequence. -/
theorem no_segment_example_is_nil :
    parseExampleValue External.simple "" (Ty.ArrayType "[]int64" (Ty.PrimitiveType "int64")) =
      Value.nil ∧
    parseArrayExample External.simple "" (Ty.PrimitiveType "int64") = Value.nilSlice ∧
    parseExampleValue External.simple ","
      (Ty.ArrayType "[]int64" (Ty.PrimitiveType "int64")) = Value.nilSlice ∧
    parseExampleValue External.simple " , "
      (Ty.ArrayType "[]int64" (Ty.PrimitiveType "int64")) = Value.nilSlice ∧
    parseExampleValue External.simple "[,]"
      (Ty.ArrayType "[]int64" (Ty.PrimitiveType "int64")) = Value.nilSlice ∧
    Value.nil ≠ Value.slice [] ∧ Value.nilSlice ≠ Value.slice [] :=
  ⟨rfl, rfl, rfl, rfl, rfl, by simp, by simp⟩

/-- Claim C13, amended: for every array type and every raw example string that is an empty
bracket pair, `"[]"` with nothing or only whitespace inside, `parseExampleValue` on the array
type and `parseArrayExample` on its element type return the empty sequence, which is not nil;
the empty string gives the nil interface from `parseExampleValue`. -/
theorem empty_brackets_empty_sequence (ext : External) (ws rawName : String) (t : Ty)
    (hws : ws.data.all isSpace = true) :
    parseExampleValue ext ("[" ++ ws ++ "]") (Ty.ArrayType rawName t) = Value.slice [] ∧
    parseArrayExample ext ("[" ++ ws ++ "]") t = Value.slice [] ∧
    (Value.slice []).isNil = false ∧
    parseExampleValue ext "" (Ty.ArrayType rawName t) = Value.nil := by
  have htrim := trimSpace_all_space ws hws
  refine ⟨?_, ?_, rfl, parseExampleValue_empty ext _⟩
  · rw [parseExampleValue_bracketed, if_pos htrim]
  · rw [parseArrayExample_eq, hasPrefixBracket_bracketed, hasSuffixBracket_bracketed,
      stripEnds_bracketed]
    simp [htrim]

/-- Claim C13, witness: `"[]"` and `"[  ]"` against array of int64. -/
theorem empty_brackets_empty_sequence_witness :
    parseExampleValue External.simple "[]"
      (Ty.ArrayType "[]int64" (Ty.PrimitiveType "int64")) = Value.slice [] ∧
    parseArrayExample External.simple "[  ]" (Ty.PrimitiveType "int64") = Value.slice [] :=
  ⟨(empty_brackets_empty_sequence External.simple "" "[]int64" (Ty.PrimitiveType "int64")
      (by decide)).1,
   (empty_brackets_empty_sequence External.simple "  " "[]int64" (Ty.PrimitiveType "int64")
      (by decide)).2.1⟩

/-- Claim C14, the code at the failing input: a pointer type is unwrapped by
`parseExampleValue`, for every string and inner type, but as the element type of an array it
is not; `"1,2"` against array of pointer to int64 gives the raw strings `"1"` and `"2"`,
while against array of int64 it gives the integers 1 and 2. -/
theorem pointer_element_not_unwrapped (ext : External) :
    (∀ (s rawName : String) (inner : Ty),
      parseExampleValue ext s (Ty.PointerType rawName inner) =
        parseExampleValue ext s inner) ∧
    parseExampleValue ext "1,2"
        (Ty.ArrayType "[]*int64" (Ty.PointerType "*int64" (Ty.PrimitiveType "int64"))) =
      Value.slice [Value.str "1", Value.str "2"] ∧
    parseExampleValue ext "1,2" (Ty.ArrayType "[]int64" (Ty.PrimitiveType "int64")) =
      Value.slice [Value.int64 1, Value.int64 2] ∧
    parseExampleValue ext "1,2"
        (Ty.ArrayType "[]*int64" (Ty.PointerType "*int64" (Ty.PrimitiveType "int64"))) ≠
      parseExampleValue ext "1,2" (Ty.ArrayType "[]int64" (Ty.PrimitiveType "int64")) := by
  have h1 : parseExampleValue ext "1,2"
        (Ty.ArrayType "[]*int64" (Ty.PointerType "*int64" (Ty.PrimitiveType "int64"))) =
      Value.slice [Value.str "1", Value.str "2"] := rfl
  have h2 : parseExampleValue ext "1,2" (Ty.ArrayType "[]int64" (Ty.PrimitiveType "int64")) =
      Value.slice [Value.int64 1, Value.int64 2] := rfl
  refine ⟨?_, h1, h2, ?_⟩
  · intro s rawName inner
    by_cases hs : s = ""
    · rw [hs, parseExampleValue_empty, parseExampleValue_empty]
    · rw [parseExampleValue, if_neg hs]
  · rw [h1, h2]
    simp

/-- Claim C15, counterexample: the empty string against the string primitive, a map and a
named struct gives the nil interface, not the empty string. -/
theorem empty_example_is_nil_not_string :
    parseExampleValue External.simple "" (Ty.PrimitiveType "string") = Value.nil ∧
    parseExampleValue External.simple ""
      (Ty.MapType "map[string]int" "string" (Ty.PrimitiveType "int")) = Value.nil ∧
    parseExampleValue External.simple "" (Ty.DefineStruct "Req" []) = Value.nil ∧
    Value.nil ≠ Value.str "" :=
  ⟨rfl, rfl, rfl, by simp⟩

/-- Claim C15, amended: for every non-empty raw string and every type that is the string
primitive, a map, a named struct or an anonymous struct, `parseExampleValue` returns the
string unchanged, neither parsed nor trimmed nor decomposed; `parsePrimitiveExample` on the
string kind does so for the empty string as well. -/
theorem composite_example_unchanged (ext : External) (s : String) (hs : s ≠ "") :
    parseExampleValue ext s (Ty.PrimitiveType "string") = Value.str s ∧
    (∀ rawName key value,
      parseExampleValue ext s (Ty.MapType rawName key value) = Value.str s) ∧
    (∀ rawName ms, parseExampleValue ext s (Ty.DefineStruct rawName ms) = Value.str s) ∧
    (∀ rawName ms, parseExampleValue ext s (Ty.NestedStruct rawName ms) = Value.str s) ∧
    (∀ raw : String, parsePrimitiveExample ext raw "string" = Value.str raw) := by
  have hstring : ∀ raw : String, parsePrimitiveExample ext raw "string" = Value.str raw := by
    intro raw
    unfold parsePrimitiveExample
    rw [if_neg (by decide), if_neg (by decide), if_neg (by decide), if_neg (by decide),
      if_pos rfl]
  refine ⟨?_, ?_, ?_, ?_, hstring⟩
  · rw [parseExampleValue, if_neg hs]
    exact hstring s
  · intro rawName key value
    rw [parseExampleValue, if_neg hs]
  · intro rawName ms
    rw [parseExampleValue, if_neg hs]
  · intro rawName ms
    rw [parseExampleValue, if_neg hs]

/-- Claim C15, witness: a string with blanks, commas and brackets comes back as it is. -/
theorem composite_example_unchanged_witness :
    parseExampleValue External.simple " [1, 2] " (Ty.PrimitiveType "string") =
      Value.str " [1, 2] " ∧
    parseExampleValue External.simple " [1, 2] " (Ty.DefineStruct "Req" []) =
      Value.str " [1, 2] " :=
  ⟨(composite_example_unchanged External.simple " [1, 2] " (by decide)).1,
   (composite_example_unchanged External.simple " [1, 2] " (by decide)).2.2.1 "Req" []⟩

/-- Claim C16: for every primitive element kind and every raw string that is not in bracket
form, the elements of `parseArrayExample` are, in order, `parsePrimitiveExample` of the
comma-separated segments after trimming, the segments that are empty after trimming being
skipped; so its length is the number of non-empty trimmed segments, and without such a
segment the result is the slice that was never appended to. -/
theorem plain_array_example_segments (ext : External) (s kind : String)
    (hplain : (hasPrefixBracket s && hasSuffixBracket s) = false) :
    (parseArrayExample ext s (Ty.PrimitiveType kind)).elems =
      some ((keptParts (splitComma s)).map (fun seg => parsePrimitiveExample ext seg kind)) ∧
    (parseArrayExample ext s (Ty.PrimitiveType kind)).elems.map List.length =
      some (keptParts (splitComma s)).length ∧
    parseArrayExample ext s (Ty.PrimitiveType kind) =
      (if keptParts (splitComma s) = [] then Value.nilSlice
       else Value.slice
        ((keptParts (splitComma s)).map (fun seg => parsePrimitiveExample ext seg kind))) := by
  have h : parseArrayExample ext s (Ty.PrimitiveType kind) =
      (if keptParts (splitComma s) = [] then Value.nilSlice
       else Value.slice
        ((keptParts (splitComma s)).map
          (fun seg => parsePrimitiveExample ext seg kind))) := by
    rw [parseArrayExample_eq, hplain]
    simp only [Bool.false_eq_true, if_false]
    rw [collectParts_eq]
    by_cases hk : keptParts (splitComma s) = []
    · simp only [hk, if_true]
      rfl
    · simp only [hk, if_false]
      rfl
  have helems : (parseArrayExample ext s (Ty.PrimitiveType kind)).elems =
      some ((keptParts (splitComma s)).map
        (fun seg => parsePrimitiveExample ext seg kind)) := by
    rw [h]
    by_cases hk : keptParts (splitComma s) = []
    · simp [hk, Value.elems]
    · simp [hk, Value.elems]
  refine ⟨helems, ?_, h⟩
  rw [helems]
  simp

/-- Claim C16, witness: `TestParseArrayExample`, `"1,2,3"` against int64 gives the three
integers 1, 2, 3; and `"1, ,2,"` has two non-empty segments. -/
theorem plain_array_example_segments_witness :
    parseArrayExample External.simple "1,2,3" (Ty.PrimitiveType "int64") =
      Value.slice [Value.int64 1, Value.int64 2, Value.int64 3] ∧
    (parseArrayExample External.simple "1, ,2," (Ty.PrimitiveType "int64")).elems =
      some [Value.int64 1, Value.int64 2] :=
  ⟨(plain_array_example_segments External.simple "1,2,3" "int64" (by decide)).2.2,
   (plain_array_example_segments External.simple "1, ,2," "int64" (by decide)).1⟩

/-! ## Claim on members with several tags -/

theorem tagParameter_map_In (ext : External) (ctx : Context) (m : Member)
    (key location : String) (allow : Bool) :
    (tagParameter ext ctx m key location allow).map (fun p => p.In) =
      if m.hasTag key then [location] else [] := by
  unfold tagParameter Member.hasTag
  cases m.Tag.Get key with
  | none => rfl
  | some t => simp [simpleParameter_In]

theorem memberParams_map_In (ext : External) (ctx : Context) (method : String) (m : Member) :
    (memberParams ext ctx method m).map (fun p => p.In) =
      (if m.hasTag tagHeader then [paramsInHeader] else []) ++
      (if m.hasTag tagPath then [paramsInPath] else []) ++
      (if m.hasTag tagForm then [formLocation method] else []) := by
  unfold memberParams
  rw [List.map_append, List.map_append, tagParameter_map_In, tagParameter_map_In,
    tagParameter_map_In]

theorem memberParams_length (ext : External) (ctx : Context) (method : String) (m : Member) :
    (memberParams ext ctx method m).length = m.bindingTagCount := by
  have h := congrArg List.length (memberParams_map_In ext ctx method m)
  rw [List.length_map] at h
  rw [h]
  unfold Member.bindingTagCount
  cases m.hasTag tagHeader <;> cases m.hasTag tagPath <;> cases m.hasTag tagForm <;> rfl

theorem flatMap_length_sum (ms : List Member) (f : Member → List Parameter) :
    (ms.flatMap f).length = (ms.map (fun m => (f m).length)).sum := by
  induction ms with
  | nil => rfl
  | cons m rest ih => simp [List.flatMap_cons, ih]

/-- A json-tagged member leaves a property under its json name in the walk. -/
theorem walkMembers_has_property (ext : External) (ctx : Context) (method : String)
    (ms : List Member) (m : Member) (hm : m ∈ ms) (jsonTag : Tag)
    (hjson : m.Tag.Get tagJson = some jsonTag) :
    (mapGet (walkMembers ext ctx method ms).properties jsonTag.Name).isSome = true := by
  induction ms using List.reverseRecOn with
  | nil => simp at hm
  | append_singleton rest last ih =>
    rw [walkMembers_concat, memberCallback_properties]
    rw [List.mem_append, List.mem_singleton] at hm
    cases hl : last.Tag.Get tagJson with
    | none =>
      rcases hm with hm | hm
      · exact ih hm
      · rw [hm, hl] at hjson
        simp at hjson
    | some t =>
      simp only []
      by_cases hname : t.Name = jsonTag.Name
      · rw [hname, mapGet_mapSet_self]
        rfl
      · rw [mapGet_mapSet_other _ _ _ _ hname]
        rcases hm with hm | hm
        · exact ih hm
        · rw [hm, hl] at hjson
          simp only [Option.some.injEq] at hjson
          exact absurd (congrArg Tag.Name hjson) hname

/-- Claim C20, counterexample: with shared definitions, the member `Trace` with a header and
a json tag emits its header parameter and contributes no body property. Under GET no body
parameter is returned at all, and under POST the body schema is a reference without
properties. -/
theorem header_json_member_no_body_property :
    (∃ m ∈ mixedTagMembers, m.hasTag tagHeader = true ∧ m.hasTag tagJson = true ∧
      (m.Tag.Get tagJson).map Tag.Name = some "trace") ∧
    (parametersFromType External.simple { UseDefinitions := true } "GET"
      (some (Ty.DefineStruct "Req" mixedTagMembers)) { Properties := [] }).map
      (fun p => p.In) = [paramsInHeader, paramsInPath, paramsInQuery, paramsInHeader] ∧
    (¬ ∃ p schema,
      p ∈ parametersFromType External.simple { UseDefinitions := true } "GET"
        (some (Ty.DefineStruct "Req" mixedTagMembers)) { Properties := [] } ∧
      p.In = paramsInBody ∧ p.Schema = some schema ∧
      (mapGet schema.Properties "trace").isSome = true) ∧
    (parametersFromType External.simple { UseDefinitions := true } "POST"
      (some (Ty.DefineStruct "Req" mixedTagMembers)) { Properties := [] }).map
      (fun p => (p.In, p.Schema.map (fun schema => (schema.Ref, schema.Properties.length)))) =
      [(paramsInHeader, none), (paramsInPath, none), (paramsInForm, none),
       (paramsInHeader, none), (paramsInBody, some ("#/definitions/Req", 0))] := by
  have hIn : (parametersFromType External.simple { UseDefinitions := true } "GET"
      (some (Ty.DefineStruct "Req" mixedTagMembers)) { Properties := [] }).map
      (fun p => p.In) = [paramsInHeader, paramsInPath, paramsInQuery, paramsInHeader] := rfl
  refine ⟨⟨Member.mk "Trace" (Ty.PrimitiveType "string")
      [{ Key := "header", Name := "trace", Options := [] },
       { Key := "json", Name := "trace", Options := [] }] "",
    by simp [mixedTagMembers], rfl, rfl, rfl⟩, hIn, ?_, rfl⟩
  rintro ⟨p, schema, hp, hbody, _, _⟩
  have hmem : p.In ∈ (parametersFromType External.simple { UseDefinitions := true } "GET"
      (some (Ty.DefineStruct "Req" mixedTagMembers)) { Properties := [] }).map
      (fun p => p.In) := List.mem_map_of_mem (fun p => p.In) hp
  rw [hIn, hbody] at hmem
  exact absurd hmem (by decide)

/-- Claim C20, amended: the tags of a member are inspected independently. For every named
struct, method and context, the non-body parameters returned by `parametersFromType` are the
parameters of the members in order, one for each of the tags header, path and form that the
member carries, header before path before form; their number is the number of such
(member, tag) pairs; a member without binding tag adds none; and when shared definitions are
off, a member with a json tag, whatever other tags it carries, has a property under its json
name in the schema of the body parameter. -/
theorem one_parameter_per_binding_tag (ext : External) (ctx : Context)
    (method rawName : String) (ms : List Member) (atDoc : AtDoc) :
    (parametersFromType ext ctx method (some (Ty.DefineStruct rawName ms)) atDoc).filter
        (fun p => p.In != paramsInBody) = ms.flatMap (memberParams ext ctx method) ∧
    ((parametersFromType ext ctx method (some (Ty.DefineStruct rawName ms)) atDoc).filter
        (fun p => p.In != paramsInBody)).length = (ms.map Member.bindingTagCount).sum ∧
    (∀ m : Member, (memberParams ext ctx method m).map (fun p => p.In) =
      (if m.hasTag tagHeader then [paramsInHeader] else []) ++
      (if m.hasTag tagPath then [paramsInPath] else []) ++
      (if m.hasTag tagForm then [formLocation method] else [])) ∧
    (∀ m : Member, m.bindingTagCount = 0 → memberParams ext ctx method m = []) ∧
    (ctx.UseDefinitions = false → ∀ m ∈ ms, ∀ jsonTag, m.Tag.Get tagJson = some jsonTag →
      ∃ p schema,
        p ∈ parametersFromType ext ctx method (some (Ty.DefineStruct rawName ms)) atDoc ∧
        p.In = paramsInBody ∧ p.Schema = some schema ∧
        (mapGet schema.Properties jsonTag.Name).isSome = true) := by
  have hfilter : (parametersFromType ext ctx method (some (Ty.DefineStruct rawName ms))
      atDoc).filter (fun p => p.In != paramsInBody) =
      ms.flatMap (memberParams ext ctx method) := by
    rw [parametersFromType_struct, List.filter_append]
    have h1 : (ms.flatMap (memberParams ext ctx method)).filter
        (fun p => p.In != paramsInBody) = ms.flatMap (memberParams ext ctx method) := by
      rw [List.filter_eq_self]
      intro p hp
      rw [List.mem_flatMap] at hp
      obtain ⟨m, _, hpm⟩ := hp
      simpa using memberParams_In_ne_body ext ctx method m p hpm
    have h2 : (structBody ext ctx method rawName ms atDoc).filter
        (fun p => p.In != paramsInBody) = [] := by
      rw [List.filter_eq_nil_iff]
      intro p hp
      simp [structBody_In ext ctx method rawName ms atDoc p hp]
    rw [h1, h2, List.append_nil]
  refine ⟨hfilter, ?_, memberParams_map_In ext ctx method, ?_, ?_⟩
  · rw [hfilter, flatMap_length_sum]
    congr 1
    apply List.map_congr_left
    intro m _
    exact memberParams_length ext ctx method m
  · intro m hm
    rw [← memberParams_length ext ctx method m] at hm
    exact List.length_eq_zero.1 hm
  · intro hdef m hm jsonTag hjson
    have hany : ms.any (fun x => x.hasTag tagJson) = true := by
      rw [any_hasTag_iff]
      exact ⟨m, hm, by simp [Member.hasTag, hjson]⟩
    obtain ⟨_, _, h3, _, _⟩ := attachReqExample_fields ext atDoc (Ty.DefineStruct rawName ms)
      { Schema.zero with
        Type_ := ext.typeFromGoType ctx (Ty.DefineStruct rawName ms)
        Properties := (walkMembers ext ctx method ms).properties
        Required := (walkMembers ext ctx method ms).requiredFields }
    refine ⟨bodyParameter (attachReqExample ext atDoc (Ty.DefineStruct rawName ms)
        { Schema.zero with
          Type_ := ext.typeFromGoType ctx (Ty.DefineStruct rawName ms)
          Properties := (walkMembers ext ctx method ms).properties
          Required := (walkMembers ext ctx method ms).requiredFields }),
      _, ?_, bodyParameter_In _, bodyParameter_Schema _, ?_⟩
    · rw [parametersFromType_struct, List.mem_append]
      right
      unfold structBody
      simp only [hany, hdef, if_true, Bool.false_eq_true, if_false, List.mem_singleton]
    · rw [h3]
      exact walkMembers_has_property ext ctx method ms m hm jsonTag hjson

/-- Claim C20, witness: a member with header, path and form tags, a member with header and
json tags and a member without tags, under GET without shared definitions: a header, a path
and a query parameter for the first, a header parameter for the second, none for the third,
then the body, whose schema has the property of the second member. -/
theorem one_parameter_per_binding_tag_witness :
    (parametersFromType External.simple { UseDefinitions := false } "GET"
      (some (Ty.DefineStruct "Req" mixedTagMembers)) { Properties := [] }).map
      (fun p => p.In) =
      [paramsInHeader, paramsInPath, paramsInQuery, paramsInHeader, paramsInBody] ∧
    ((parametersFromType External.simple { UseDefinitions := false } "GET"
      (some (Ty.DefineStruct "Req" mixedTagMembers)) { Properties := [] }).filter
      (fun p => p.In != paramsInBody)).length = 4 ∧
    (∃ p schema,
      p ∈ parametersFromType External.simple { UseDefinitions := false } "GET"
        (some (Ty.DefineStruct "Req" mixedTagMembers)) { Properties := [] } ∧
      p.In = paramsInBody ∧ p.Schema = some schema ∧
      (mapGet schema.Properties "trace").isSome = true) :=
  ⟨rfl,
   (one_parameter_per_binding_tag External.simple { UseDefinitions := false } "GET" "Req"
      mixedTagMembers { Properties := [] }).2.1,
   (one_parameter_per_binding_tag External.simple { UseDefinitions := false } "GET" "Req"
      mixedTagMembers { Properties := [] }).2.2.2.2 rfl
      (Member.mk "Trace" (Ty.PrimitiveType "string")
        [{ Key := "header", Name := "trace", Options := [] },
         { Key := "json", Name := "trace", Options := [] }] "")
      (by simp [mixedTagMembers]) { Key := "json", Name := "trace", Options := [] } rfl⟩

/-! ## Invariant of the inline body schema -/

theorem mapSet_keys {β : Type} (m : List (String × β)) (k : String) (v : β) :
    (mapSet m k v).map Prod.fst = (m.map Prod.fst).filter (fun x => x != k) ++ [k] := by
  unfold mapSet
  rw [List.map_append, List.filter_map]
  rfl

theorem mem_mapSet_keys {β : Type} (m : List (String × β)) (k k2 : String) (v : β) :
    k2 ∈ (mapSet m k v).map Prod.fst ↔ k2 = k ∨ k2 ∈ m.map Prod.fst := by
  rw [mapSet_keys, List.mem_append, List.mem_filter, List.mem_singleton]
  constructor
  · rintro (⟨h, _⟩ | h)
    · exact Or.inr h
    · exact Or.inl h
  · rintro (h | h)
    · exact Or.inr h
    · by_cases hk : k2 = k
      · exact Or.inr hk
      · exact Or.inl ⟨h, by simpa using hk⟩

theorem mapSet_keys_nodup {β : Type} (m : List (String × β)) (k : String) (v : β)
    (h : (m.map Prod.fst).Nodup) : ((mapSet m k v).map Prod.fst).Nodup := by
  rw [mapSet_keys]
  refine List.Nodup.append (h.filter _) (List.nodup_singleton k) ?_
  intro x hx hxk
  rw [List.mem_singleton] at hxk
  rw [List.mem_filter] at hx
  simp [hxk] at hx

/-- The keys of the properties that the walk accumulates are the json names of the members
that carry a json tag. -/
theorem walkMembers_keys (ext : External) (ctx : Context) (method : String)
    (ms : List Member) (k : String) :
    k ∈ (walkMembers ext ctx method ms).properties.map Prod.fst ↔
      ∃ m ∈ ms, ∃ jsonTag, m.Tag.Get tagJson = some jsonTag ∧ jsonTag.Name = k := by
  induction ms using List.reverseRecOn with
  | nil => simp [walkMembers_nil]
  | append_singleton rest last ih =>
    rw [walkMembers_concat, memberCallback_properties]
    cases hl : last.Tag.Get tagJson with
    | none =>
      simp only []
      rw [ih]
      constructor
      · rintro ⟨m, hm, j, hj, hk⟩
        exact ⟨m, List.mem_append_left _ hm, j, hj, hk⟩
      · rintro ⟨m, hm, j, hj, hk⟩
        rw [List.mem_append, List.mem_singleton] at hm
        rcases hm with hm | hm
        · exact ⟨m, hm, j, hj, hk⟩
        · rw [hm, hl] at hj
          simp at hj
    | some t =>
      simp only []
      rw [mem_mapSet_keys, ih]
      constructor
      · rintro (h | ⟨m, hm, j, hj, hk⟩)
        · exact ⟨last, by simp, t, hl, h.symm⟩
        · exact ⟨m, List.mem_append_left _ hm, j, hj, hk⟩
      · rintro ⟨m, hm, j, hj, hk⟩
        rw [List.mem_append, List.mem_singleton] at hm
        rcases hm with hm | hm
        · exact Or.inr ⟨m, hm, j, hj, hk⟩
        · rw [hm, hl] at hj
          simp only [Option.some.injEq] at hj
          rw [← hj] at hk
          exact Or.inl hk.symm

theorem walkMembers_keys_nodup (ext : External) (ctx : Context) (method : String)
    (ms : List Member) :
    ((walkMembers ext ctx method ms).properties.map Prod.fst).Nodup := by
  induction ms using List.reverseRecOn with
  | nil => simp [walkMembers_nil]
  | append_singleton rest last ih =>
    rw [walkMembers_concat, memberCallback_properties]
    cases hl : last.Tag.Get tagJson with
    | none => exact ih
    | some t => exact mapSet_keys_nodup _ _ _ ih

/-- The required names that the walk accumulates are json names of required members that
carry a json tag. -/
theorem walkMembers_requiredFields (ext : External) (ctx : Context) (method : String)
    (ms : List Member) (name : String)
    (h : name ∈ (walkMembers ext ctx method ms).requiredFields) :
    ∃ m ∈ ms, ∃ jsonTag, m.Tag.Get tagJson = some jsonTag ∧ jsonTag.Name = name ∧
      ext.isRequired ctx m.Tag = true := by
  induction ms using List.reverseRecOn with
  | nil => simp [walkMembers_nil] at h
  | append_singleton rest last ih =>
    rw [walkMembers_concat, memberCallback_requiredFields] at h
    have hold : name ∈ (walkMembers ext ctx method rest).requiredFields →
        ∃ m ∈ rest ++ [last], ∃ jsonTag, m.Tag.Get tagJson = some jsonTag ∧
          jsonTag.Name = name ∧ ext.isRequired ctx m.Tag = true := by
      intro h2
      obtain ⟨m, hm, j, hj, hk, hr⟩ := ih h2
      exact ⟨m, List.mem_append_left _ hm, j, hj, hk, hr⟩
    cases hl : last.Tag.Get tagJson with
    | none =>
      rw [hl] at h
      exact hold h
    | some t =>
      rw [hl] at h
      simp only [] at h
      cases hr : ext.isRequired ctx last.Tag with
      | false =>
        rw [hr] at h
        exact hold h
      | true =>
        rw [hr] at h
        simp only [if_true, List.mem_append, List.mem_singleton] at h
        rcases h with h | h
        · exact hold h
        · exact ⟨last, by simp, t, hl, h.symm, hr⟩

/-- Claim C21: invariant of the inline body schema. For every named struct, method and
context without shared definitions, in the schema of the body parameter every name of the
required list is a key of the properties; the keys of the properties, each occurring once,
are exactly the json names of the members that carry a json tag; and under a json name
stands the property of the last member with that name, which overwrites the earlier ones. -/
theorem inline_body_schema_invariant (ext : External) (ctx : Context)
    (method rawName : String) (ms : List Member) (atDoc : AtDoc)
    (hdef : ctx.UseDefinitions = false) (p : Parameter)
    (hp : p ∈ parametersFromType ext ctx method (some (Ty.DefineStruct rawName ms)) atDoc)
    (hbody : p.In = paramsInBody) :
    ∃ schema, p.Schema = some schema ∧
      (∀ name ∈ schema.Required, name ∈ schema.Properties.map Prod.fst) ∧
      (∀ k, k ∈ schema.Properties.map Prod.fst ↔
        ∃ m ∈ ms, ∃ jsonTag, m.Tag.Get tagJson = some jsonTag ∧ jsonTag.Name = k) ∧
      (schema.Properties.map Prod.fst).Nodup ∧
      (∀ (pre post : List Member) (m : Member) (jsonTag : Tag), ms = pre ++ m :: post →
        m.Tag.Get tagJson = some jsonTag →
        (∀ m2 ∈ post, ∀ t, m2.Tag.Get tagJson = some t → t.Name ≠ jsonTag.Name) →
        mapGet schema.Properties jsonTag.Name =
          some (jsonProperty ext ctx m jsonTag (m.Tag.Get "example"))) := by
  rw [parametersFromType_struct, List.mem_append] at hp
  rcases hp with hp | hp
  · rw [List.mem_flatMap] at hp
    obtain ⟨m, _, hpm⟩ := hp
    exact absurd hbody (memberParams_In_ne_body ext ctx method m p hpm)
  · unfold structBody at hp
    simp only [hdef, Bool.false_eq_true, if_false] at hp
    by_cases hany : ms.any (fun m => m.hasTag tagJson) = true
    · simp only [hany, if_true, List.mem_singleton] at hp
      obtain ⟨_, _, h3, h4, _⟩ := attachReqExample_fields ext atDoc
        (Ty.DefineStruct rawName ms)
        { Schema.zero with
          Type_ := ext.typeFromGoType ctx (Ty.DefineStruct rawName ms)
          Properties := (walkMembers ext ctx method ms).properties
          Required := (walkMembers ext ctx method ms).requiredFields }
      subst hp
      refine ⟨_, bodyParameter_Schema _, ?_, ?_, ?_, ?_⟩
      · intro name hname
        rw [h4] at hname
        rw [h3]
        obtain ⟨m, hm, j, hj, hk, _⟩ :=
          walkMembers_requiredFields ext ctx method ms name hname
        exact (walkMembers_keys ext ctx method ms name).2 ⟨m, hm, j, hj, hk⟩
      · intro k
        rw [h3]
        exact walkMembers_keys ext ctx method ms k
      · rw [h3]
        exact walkMembers_keys_nodup ext ctx method ms
      · intro pre post m jsonTag hms hjson hlast
        rw [h3]
        subst hms
        exact walkMembers_property ext ctx method pre post m jsonTag hjson hlast
    · simp [hany] at hp

/-- Claim C21, witness: two required members with the json name `count`; the body schema has
the single key `count`, on which the required list, which names it twice, draws, and the
property under it is the one of the second member, with the example 2. -/
theorem inline_body_schema_invariant_witness :
    ∃ p schema,
      p ∈ parametersFromType External.simple { UseDefinitions := false } "POST"
        (some (Ty.DefineStruct "Req" sameJsonNameTwice)) { Properties := [] } ∧
      p.In = paramsInBody ∧ p.Schema = some schema ∧
      schema.Properties.map Prod.fst = ["count"] ∧
      schema.Required = ["count", "count"] ∧
      (∀ name ∈ schema.Required, name ∈ schema.Properties.map Prod.fst) ∧
      (mapGet schema.Properties "count").map (fun prop => prop.Example) =
        some (Value.int64 2) := by
  obtain ⟨schema, hs, hreq, _, _, _⟩ :=
    inline_body_schema_invariant External.simple { UseDefinitions := false } "POST" "Req"
      sameJsonNameTwice { Properties := [] } rfl _ (List.mem_singleton.2 rfl) rfl
  have hs2 := hs
  rw [bodyParameter_Schema] at hs2
  simp only [Option.some.injEq] at hs2
  subst hs2
  exact ⟨_, _, List.mem_singleton.2 rfl, rfl, rfl, rfl, rfl, hreq, rfl⟩

end Swagger
